import Mathlib

/-!
Verification development for the MWEngine event rendering and buffer core.

The definitions below are a shallow embedding of the C++ sources:
  * `AudioBuffer` and its operations embed `audiobuffer.cpp`
    (constructor, `getBufferForChannel`, `mergeBuffers`, `silenceBuffers`);
  * `SynthEvent` state and operations embed `synthevent.cpp`
    (`init`-established fields, `setFrequency`, `calculateBuffers`,
    `initKarplusStrong`, `render`, `mixBuffer`, `synthesize`, `setDeletable`).

Samples (`SAMPLE_TYPE`, C++ float) are modelled as rationals; machine `int`
values as `ℤ` with C's cast-to-int modelled as truncation toward zero
(`ratTrunc`).  External collaborators that are not part of the sources
(`sin`, `randomFloat`, the ADSR envelope, the arpeggiator, the base mix
routine of cached playback) are parameters collected in an `Ext` record, and
the engine-wide constants (`AudioEngineProps`, `AudioEngine` globals) in a
`Props` record; theorems quantify over them.  Buffer pointers that the C++
code may leave null are `Option`s.
-/

namespace MWEngine

/-- Truncation toward zero, the semantics of C's `(int)` cast on a float. -/
def ratTrunc (q : ℚ) : ℤ := if 0 ≤ q then ⌊q⌋ else ⌈q⌉

/-- Rounding half away from zero on nonnegatives; this is the "round" the
spec's sentence about the ring-buffer capacity refers to. -/
def qRound (q : ℚ) : ℤ := ⌊q + 1/2⌋

/-- The integers `a, a+1, ..., b-1` (empty when `b ≤ a`). -/
def intRange (a b : ℤ) : List ℤ := (List.range (b - a).toNat).map (fun k : ℕ => a + (k : ℤ))

/-- Embedding of `AudioBuffer`: `loopeable`, `amountOfChannels`, `bufferSize`
and the per-channel sample arrays (`_buffers`). -/
structure AudioBuffer where
  loopeable : Bool
  amountOfChannels : ℕ
  bufferSize : ℕ
  channels : List (List ℚ)
deriving Repr, DecidableEq

/-- The `AudioBuffer` constructor: both branches (pooled silent template and
`generateSilentBuffer`) produce zero-filled channel arrays. -/
def newAudioBuffer (aAmountOfChannels aBufferSize : ℕ) : AudioBuffer :=
  { loopeable := false
    amountOfChannels := aAmountOfChannels
    bufferSize := aBufferSize
    channels := List.replicate aAmountOfChannels (List.replicate aBufferSize 0) }

/-- Well-formedness: the channel list has exactly `amountOfChannels` entries,
each of length `bufferSize` (the C++ constructor guarantees this). -/
def AudioBuffer.wf (b : AudioBuffer) : Prop :=
  b.channels.length = b.amountOfChannels ∧ ∀ ch ∈ b.channels, ch.length = b.bufferSize

instance (b : AudioBuffer) : Decidable b.wf := by
  unfold AudioBuffer.wf; infer_instance

/-- Reading one sample: `getBufferForChannel(c)[ i ]`. -/
def AudioBuffer.sample (b : AudioBuffer) (c i : ℕ) : ℚ := (b.channels.getD c []).getD i 0

/-- The inner loop of `mergeBuffers` for one channel pair: starting at write
index `i` and read index `r` with `rem` iterations left (`rem` is
`maxWriteOffset - i`), add `src[r] * g` into the target, wrapping `r` to `0`
when it reaches `sourceLength` if the source is loopeable and stopping
otherwise.  Returns the updated channel and the number of samples written. -/
def mergeChanLoop (src : List ℚ) (sourceLength : ℕ) (lp : Bool) (g : ℚ) :
    ℕ → ℕ → ℕ → List ℚ → List ℚ × ℕ
  | _, _, 0, t => (t, 0)
  | i, r, Nat.succ rem, t =>
    if sourceLength ≤ r then
      if lp then
        let t2 := t.set i (t.getD i 0 + src.getD 0 0 * g)
        let p := mergeChanLoop src sourceLength lp g (i + 1) 1 rem t2
        (p.1, p.2 + 1)
      else (t, 0)
    else
      let t2 := t.set i (t.getD i 0 + src.getD r 0 * g)
      let p := mergeChanLoop src sourceLength lp g (i + 1) (r + 1) rem t2
      (p.1, p.2 + 1)

/-- The number of samples `mergeChanLoop` writes; it depends only on the
source length, the loop flag and the offsets, not on the sample data. -/
def chanCount (sourceLength : ℕ) (lp : Bool) : ℕ → ℕ → ℕ
  | _, 0 => 0
  | r, Nat.succ rem =>
    if sourceLength ≤ r then
      if lp then chanCount sourceLength lp 1 rem + 1 else 0
    else chanCount sourceLength lp (r + 1) rem + 1

/-- The outer channel loop of `mergeBuffers`: channel index `c` runs over the
target's channels and the body only executes while `c ≤ maxSourceChannel`
(i.e. `c < numCommon`).  Returns the updated channel list and the total
number of samples written across channels. -/
def mergeChannels (src : AudioBuffer) (numCommon aWriteOffset aReadOffset writeLength : ℕ)
    (g : ℚ) : ℕ → List (List ℚ) → List (List ℚ) × ℕ
  | _, [] => ([], 0)
  | c, ch :: rest =>
    let p :=
      if c < numCommon then
        mergeChanLoop (src.channels.getD c []) src.bufferSize src.loopeable g
          aWriteOffset aReadOffset writeLength ch
      else (ch, 0)
    let q := mergeChannels src numCommon aWriteOffset aReadOffset writeLength g (c + 1) rest
    (p.1 :: q.1, p.2 + q.2)

/-- `writeLength` as computed by `mergeBuffers`: the source length, clipped so
that writes stay within the bounds of the target buffer. -/
def mergeWriteLength (tgt src : AudioBuffer) (aWriteOffset : ℕ) : ℕ :=
  if tgt.bufferSize < aWriteOffset + src.bufferSize then tgt.bufferSize - aWriteOffset
  else src.bufferSize

/-- Embedding of `AudioBuffer::mergeBuffers`.  Returns the updated target
buffer together with the C++ return value `writtenSamples / c`.  The guard
returns `(tgt, 0)` when the source is null or the write offset is at or past
the target's length.  Being a pure function, it leaves the source untouched
by construction. -/
def AudioBuffer.mergeBuffers (tgt : AudioBuffer) (src? : Option AudioBuffer)
    (aReadOffset aWriteOffset : ℕ) (aMixVolume : ℚ) : AudioBuffer × ℕ :=
  match src? with
  | none => (tgt, 0)
  | some src =>
    if tgt.bufferSize ≤ aWriteOffset then (tgt, 0)
    else
      let numCommon := min tgt.amountOfChannels src.amountOfChannels
      let p := mergeChannels src numCommon aWriteOffset aReadOffset
        (mergeWriteLength tgt src aWriteOffset) aMixVolume 0 tgt.channels
      ({ tgt with channels := p.1 }, p.2 / numCommon)

/- ### Lemmas about the merge loops -/

theorem mergeChanLoop_snd (src : List ℚ) (M : ℕ) (lp : Bool) (g : ℚ) :
    ∀ rem i r t, (mergeChanLoop src M lp g i r rem t).2 = chanCount M lp r rem := by
  cases lp <;>
  · intro rem
    induction rem with
    | zero => intro i r t; simp [mergeChanLoop, chanCount]
    | succ n ih =>
      intro i r t
      simp only [mergeChanLoop, chanCount]
      by_cases h : M ≤ r <;> simp [h, ih]

theorem chanCount_noloop (M : ℕ) :
    ∀ rem r, r ≤ M → chanCount M false r rem = min rem (M - r) := by
  intro rem
  induction rem with
  | zero => intro r _; simp [chanCount]
  | succ n ih =>
    intro r hr
    simp only [chanCount]
    by_cases h : M ≤ r
    · have : r = M := le_antisymm hr h
      simp [h, this]
    · have hr1 : r + 1 ≤ M := Nat.succ_le_of_lt (Nat.lt_of_not_le h)
      rw [if_neg h, ih (r + 1) hr1]
      omega

theorem chanCount_loop (M : ℕ) :
    ∀ rem r, chanCount M true r rem = rem := by
  intro rem
  induction rem with
  | zero => intro r; simp [chanCount]
  | succ n ih =>
    intro r
    simp only [chanCount]
    by_cases h : M ≤ r <;> simp [h, ih]

theorem mergeChanLoop_length (src : List ℚ) (M : ℕ) (lp : Bool) (g : ℚ) :
    ∀ rem i r t, (mergeChanLoop src M lp g i r rem t).1.length = t.length := by
  cases lp <;>
  · intro rem
    induction rem with
    | zero => intro i r t; simp [mergeChanLoop]
    | succ n ih =>
      intro i r t
      simp only [mergeChanLoop]
      by_cases h : M ≤ r <;> simp [h, ih]

theorem mergeChanLoop_frame (src : List ℚ) (M : ℕ) (lp : Bool) (g : ℚ) :
    ∀ rem i r t j, j < i ∨ i + chanCount M lp r rem ≤ j →
      (mergeChanLoop src M lp g i r rem t).1.getD j 0 = t.getD j 0 := by
  cases lp with
  | false =>
    intro rem
    induction rem with
    | zero => intro i r t j _; simp [mergeChanLoop]
    | succ n ih =>
      intro i r t j hj
      simp only [chanCount] at hj; simp at hj
      simp only [mergeChanLoop]; simp only [Bool.false_eq_true]
      by_cases h : M ≤ r
      · simp [h]
      · simp only [h, if_false, ite_false]
        rw [if_neg h] at hj
        have hji : i ≠ j := by omega
        rw [ih (i + 1) (r + 1) _ j (by omega)]
        simp [List.getD, List.getElem?_set_ne hji]
  | true =>
    intro rem
    induction rem with
    | zero => intro i r t j _; simp [mergeChanLoop]
    | succ n ih =>
      intro i r t j hj
      simp only [chanCount] at hj; simp at hj
      simp only [mergeChanLoop]
      by_cases h : M ≤ r
      · rw [if_pos h] at hj
        simp only [h, if_true, ite_true]
        have hji : i ≠ j := by omega
        rw [ih (i + 1) 1 _ j (by omega)]
        simp [List.getD, List.getElem?_set_ne hji]
      · rw [if_neg h] at hj
        simp only [h, if_false, ite_false]
        have hji : i ≠ j := by omega
        rw [ih (i + 1) (r + 1) _ j (by omega)]
        simp [List.getD, List.getElem?_set_ne hji]

theorem mergeChanLoop_add (src : List ℚ) (M : ℕ) (g : ℚ) :
    ∀ rem i r t, r + rem ≤ M → i + rem ≤ t.length →
      ∀ k, k < rem →
        (mergeChanLoop src M false g i r rem t).1.getD (i + k) 0 =
          t.getD (i + k) 0 + src.getD (r + k) 0 * g := by
  intro rem
  induction rem with
  | zero => intro i r t _ _ k hk; omega
  | succ n ih =>
    intro i r t hrM hit k hk
    have hr : ¬ M ≤ r := by omega
    simp only [mergeChanLoop, hr, if_neg, if_false]
    rcases Nat.eq_zero_or_pos k with hk0 | hkpos
    · subst hk0
      rw [mergeChanLoop_frame src M false g n (i + 1) (r + 1) _ (i + 0) (Or.inl (by omega))]
      have hi : i < t.length := by omega
      simp [List.getD, List.getElem?_set_self, hi, List.getElem?_eq_getElem]
    · obtain ⟨k', rfl⟩ : ∃ k', k = k' + 1 := ⟨k - 1, by omega⟩
      have := ih (i + 1) (r + 1) (t.set i (t.getD i 0 + src.getD r 0 * g))
        (by omega) (by simp; omega) k' (by omega)
      have harr : i + 1 + k' = i + (k' + 1) := by omega
      have harr2 : r + 1 + k' = r + (k' + 1) := by omega
      rw [harr, harr2] at this
      rw [this]
      have hne : i + (k' + 1) ≠ i := by omega
      simp [List.getD, List.getElem?_set_ne (Ne.symm (by omega : i ≠ i + (k' + 1)))]

theorem mergeChannels_length (src : AudioBuffer) (nC wo ro wl : ℕ) (g : ℚ) :
    ∀ l c, (mergeChannels src nC wo ro wl g c l).1.length = l.length := by
  intro l
  induction l with
  | nil => intro c; simp [mergeChannels]
  | cons ch rest ih => intro c; simp [mergeChannels, ih]

theorem mergeChannels_getD (src : AudioBuffer) (nC wo ro wl : ℕ) (g : ℚ) :
    ∀ l c k, (mergeChannels src nC wo ro wl g c l).1.getD k [] =
      (if c + k < nC then
        (mergeChanLoop (src.channels.getD (c + k) []) src.bufferSize src.loopeable g
          wo ro wl (l.getD k [])).1
       else l.getD k []) := by
  intro l
  induction l with
  | nil =>
    intro c k
    simp only [mergeChannels, List.getD]
    have hnil : (([] : List (List ℚ)).get? k).getD [] = ([] : List ℚ) := by
      cases k <;> rfl
    rw [hnil]
    split
    · exact (List.length_eq_zero.mp (mergeChanLoop_length _ _ _ _ _ _ _ [])).symm
    · rfl
  | cons ch rest ih =>
    intro c k
    cases k with
    | zero =>
      simp only [mergeChannels, List.getD_cons_zero]
      by_cases h : c < nC <;> simp [h]
    | succ k' =>
      simp only [mergeChannels, List.getD_cons_succ]
      rw [ih (c + 1) k']
      have : c + 1 + k' = c + (k' + 1) := by omega
      rw [this]

theorem mergeChannels_snd (src : AudioBuffer) (nC wo ro wl : ℕ) (g : ℚ) :
    ∀ l c, (mergeChannels src nC wo ro wl g c l).2 =
      min (nC - c) l.length * chanCount src.bufferSize src.loopeable ro wl := by
  intro l
  induction l with
  | nil => intro c; simp [mergeChannels]
  | cons ch rest ih =>
    intro c
    simp only [mergeChannels, List.length_cons]
    rw [ih (c + 1)]
    by_cases h : c < nC
    · rw [if_pos h, mergeChanLoop_snd]
      have h1 : nC - c = (nC - (c + 1)) + 1 := by omega
      rw [h1, Nat.succ_min_succ, Nat.succ_eq_add_one]
      ring
    · rw [if_neg h]
      have h1 : nC - c = 0 := by omega
      have h2 : nC - (c + 1) = 0 := by omega
      simp [h1, h2]


theorem mergeBuffers_oob_eq (tgt src : AudioBuffer) (ro wo : ℕ) (g : ℚ)
    (h : tgt.bufferSize ≤ wo) : tgt.mergeBuffers (some src) ro wo g = (tgt, 0) := by
  simp only [AudioBuffer.mergeBuffers]
  rw [if_pos h]

theorem mergeBuffers_cons_eq (tgt src : AudioBuffer) (ro wo : ℕ) (g : ℚ)
    (h : ¬ tgt.bufferSize ≤ wo) :
    tgt.mergeBuffers (some src) ro wo g =
      ({ tgt with channels :=
          (mergeChannels src (min tgt.amountOfChannels src.amountOfChannels) wo ro
            (mergeWriteLength tgt src wo) g 0 tgt.channels).1 },
        (mergeChannels src (min tgt.amountOfChannels src.amountOfChannels) wo ro
            (mergeWriteLength tgt src wo) g 0 tgt.channels).2 /
          min tgt.amountOfChannels src.amountOfChannels) := by
  simp only [AudioBuffer.mergeBuffers]
  rw [if_neg h]

/-- The per-channel written count and return value of `mergeBuffers` in the
non-guarded case, for a well-formed target with at least one common channel. -/
theorem mergeBuffers_snd (tgt src : AudioBuffer) (ro wo : ℕ) (g : ℚ)
    (hwf : tgt.channels.length = tgt.amountOfChannels)
    (hwo : wo < tgt.bufferSize)
    (hc : 0 < min tgt.amountOfChannels src.amountOfChannels) :
    (tgt.mergeBuffers (some src) ro wo g).2 =
      chanCount src.bufferSize src.loopeable ro (mergeWriteLength tgt src wo) := by
  rw [mergeBuffers_cons_eq tgt src ro wo g (by omega)]
  simp only
  rw [mergeChannels_snd]
  rw [hwf, Nat.sub_zero]
  have hmin : min (min tgt.amountOfChannels src.amountOfChannels) tgt.amountOfChannels =
      min tgt.amountOfChannels src.amountOfChannels := by omega
  rw [hmin, Nat.mul_div_cancel_left _ (by omega)]

/-- C1 counterexample: a loopeable source of length `M = 2` mixed into a
target of length `N = 4` at write offset `0` and read offset `0` writes and
reports `2` samples, not the `N = 4` samples the claim asserts: the write
length is clipped to the source length, so the wrap never happens here. -/
theorem C1_mergeBuffers_loopable_cex :
    ((AudioBuffer.mk false 1 4 [[0, 0, 0, 0]]).mergeBuffers
        (some (AudioBuffer.mk true 1 2 [[1, 1]])) 0 0 1).2 = 2 ∧
    ((AudioBuffer.mk false 1 4 [[0, 0, 0, 0]]).mergeBuffers
        (some (AudioBuffer.mk true 1 2 [[1, 1]])) 0 0 1).2 ≠ 4 := by
  constructor <;> decide

/-- C1 (amended): for `mergeBuffers` with read offset 0, a target of
frameCount `N` and a source of frameCount `M ≤ N`: when the source is not
loopable it writes and returns `min(M, N - writeOffset)` samples per common
channel; when the source is loopable and the write offset is 0 it writes and
returns `M` samples per common channel (not `N`: the write length is capped
at the source length, so with read offset 0 the wrap at `M` never fires). -/
theorem C1_mergeBuffers_mix_amended (tgt src : AudioBuffer) (wo : ℕ) (g : ℚ)
    (hwf : tgt.channels.length = tgt.amountOfChannels)
    (hMN : src.bufferSize ≤ tgt.bufferSize)
    (hwo : wo < tgt.bufferSize)
    (hc : 0 < min tgt.amountOfChannels src.amountOfChannels) :
    (src.loopeable = false →
      (tgt.mergeBuffers (some src) 0 wo g).2 = min src.bufferSize (tgt.bufferSize - wo)) ∧
    (src.loopeable = true → wo = 0 →
      (tgt.mergeBuffers (some src) 0 wo g).2 = src.bufferSize) := by
  constructor
  · intro hlp
    rw [mergeBuffers_snd tgt src 0 wo g hwf hwo hc, hlp,
      chanCount_noloop _ _ 0 (Nat.zero_le _)]
    unfold mergeWriteLength
    by_cases h : tgt.bufferSize < wo + src.bufferSize
    · rw [if_pos h]; omega
    · rw [if_neg h]; omega
  · intro hlp hwo0
    subst hwo0
    rw [mergeBuffers_snd tgt src 0 0 g hwf hwo hc, hlp, chanCount_loop]
    unfold mergeWriteLength
    by_cases h : tgt.bufferSize < 0 + src.bufferSize
    · rw [if_pos h]; omega
    · rw [if_neg h]

/-- Witness for `C1_mergeBuffers_mix_amended` at a concrete input: a
non-loopeable source of length 3 written at offset 2 into a target of length
4 yields `min(3, 4-2) = 2` written samples, and a loopeable source of length
2 at offset 0 yields 2 written samples. -/
theorem C1_mergeBuffers_mix_amended_witness :
    ((AudioBuffer.mk false 1 4 [[0, 0, 0, 0]]).mergeBuffers
        (some (AudioBuffer.mk false 1 3 [[1, 2, 3]])) 0 2 1).2 =
      min (AudioBuffer.mk false 1 3 [[1, 2, 3]]).bufferSize
        ((AudioBuffer.mk false 1 4 [[0, 0, 0, 0]]).bufferSize - 2) ∧
    ((AudioBuffer.mk false 1 4 [[0, 0, 0, 0]]).mergeBuffers
        (some (AudioBuffer.mk true 1 2 [[1, 1]])) 0 0 1).2 =
      (AudioBuffer.mk true 1 2 [[1, 1]]).bufferSize := by
  exact ⟨(C1_mergeBuffers_mix_amended _ _ 2 1 (by decide) (by decide) (by decide)
      (by decide)).1 rfl,
    (C1_mergeBuffers_mix_amended _ _ 0 1 (by decide) (by decide) (by decide)
      (by decide)).2 rfl rfl⟩

/-- C8: `mergeBuffers` with a null source, or with a write offset at or past
the target's frameCount, returns 0 and leaves the target entirely unchanged
(a silent no-op, not a fault). -/
theorem C8_mergeBuffers_noop (tgt src : AudioBuffer) (ro wo : ℕ) (g : ℚ) :
    tgt.mergeBuffers none ro wo g = (tgt, 0) ∧
    (tgt.bufferSize ≤ wo → tgt.mergeBuffers (some src) ro wo g = (tgt, 0)) := by
  exact ⟨rfl, fun h => mergeBuffers_oob_eq tgt src ro wo g h⟩

/-- Witness for `C8_mergeBuffers_noop`: write offset 9 on a target of
length 4 is a no-op returning 0. -/
theorem C8_mergeBuffers_noop_witness :
    (AudioBuffer.mk false 1 4 [[0, 0, 0, 0]]).mergeBuffers
        (some (AudioBuffer.mk false 1 3 [[1, 2, 3]])) 0 9 1 =
      (AudioBuffer.mk false 1 4 [[0, 0, 0, 0]], 0) :=
  (C8_mergeBuffers_noop _ _ 0 9 1).2 (by decide)

/-- C10: `mergeBuffers` never modifies the source (immediate here, since the
embedding is a pure function of the source), and in the target it leaves
untouched the shape fields, every channel at or above the common channel
count, and, within written channels, every sample index outside the written
region `[writeOffset, writeOffset + writtenPerChannel)`. -/
theorem C10_mergeBuffers_frame (tgt src : AudioBuffer) (ro wo : ℕ) (g : ℚ) :
    (tgt.mergeBuffers (some src) ro wo g).1.loopeable = tgt.loopeable ∧
    (tgt.mergeBuffers (some src) ro wo g).1.amountOfChannels = tgt.amountOfChannels ∧
    (tgt.mergeBuffers (some src) ro wo g).1.bufferSize = tgt.bufferSize ∧
    (tgt.mergeBuffers (some src) ro wo g).1.channels.length = tgt.channels.length ∧
    (∀ c, min tgt.amountOfChannels src.amountOfChannels ≤ c →
      (tgt.mergeBuffers (some src) ro wo g).1.channels.getD c [] = tgt.channels.getD c []) ∧
    (∀ c j, j < wo ∨
        wo + chanCount src.bufferSize src.loopeable ro (mergeWriteLength tgt src wo) ≤ j →
      (tgt.mergeBuffers (some src) ro wo g).1.sample c j = tgt.sample c j) := by
  by_cases hg : tgt.bufferSize ≤ wo
  · rw [mergeBuffers_oob_eq tgt src ro wo g hg]
    exact ⟨rfl, rfl, rfl, rfl, fun c _ => rfl, fun c j _ => rfl⟩
  · rw [mergeBuffers_cons_eq tgt src ro wo g hg]
    refine ⟨rfl, rfl, rfl, mergeChannels_length _ _ _ _ _ _ _ _, ?_, ?_⟩
    · intro c hcc
      show (mergeChannels _ _ _ _ _ _ 0 _).1.getD c [] = _
      rw [mergeChannels_getD]
      rw [if_neg (by omega)]
    · intro c j hj
      unfold AudioBuffer.sample
      simp only
      rw [mergeChannels_getD]
      by_cases hcc : 0 + c < min tgt.amountOfChannels src.amountOfChannels
      · rw [if_pos hcc]
        exact mergeChanLoop_frame _ _ _ _ _ _ _ _ j hj
      · rw [if_neg hcc]

/-- Witness for `C10_mergeBuffers_frame`: a 1-channel loopeable source of
length 2 merged at write offset 1 into a 2-channel target of length 4 leaves
channel 1 untouched and leaves samples 0 and 3 of channel 0 untouched (the
written region is `[1, 3)`). -/
theorem C10_mergeBuffers_frame_witness :
    ((AudioBuffer.mk false 2 4 [[5, 5, 5, 5], [6, 6, 6, 6]]).mergeBuffers
        (some (AudioBuffer.mk true 1 2 [[1, 1]])) 0 1 1).1.channels.getD 1 [] =
      [6, 6, 6, 6] ∧
    ((AudioBuffer.mk false 2 4 [[5, 5, 5, 5], [6, 6, 6, 6]]).mergeBuffers
        (some (AudioBuffer.mk true 1 2 [[1, 1]])) 0 1 1).1.sample 0 0 = 5 ∧
    ((AudioBuffer.mk false 2 4 [[5, 5, 5, 5], [6, 6, 6, 6]]).mergeBuffers
        (some (AudioBuffer.mk true 1 2 [[1, 1]])) 0 1 1).1.sample 0 3 = 5 := by
  refine ⟨?_, ?_, ?_⟩
  · rw [(C10_mergeBuffers_frame _ _ 0 1 1).2.2.2.2.1 1 (by decide)]
    rfl
  · rw [(C10_mergeBuffers_frame _ _ 0 1 1).2.2.2.2.2 0 0 (Or.inl (by decide))]
    rfl
  · rw [(C10_mergeBuffers_frame _ _ 0 1 1).2.2.2.2.2 0 3 (Or.inr (by decide))]
    rfl

/-- Modelled from the spec: the `RingBuffer` class used by the plucked-string
generator (its source file is not among this repository's files; spec §4.2
gives its contract): a fixed-capacity FIFO float queue.  `capacity` is the
constructor argument, `data` the queued samples, oldest first. -/
structure RingState where
  capacity : ℕ
  data : List ℚ
deriving Repr, DecidableEq

/-- Modelled from the spec: `RingBuffer::enqueue` pushes a value, evicting
the oldest item when the buffer is at capacity. -/
def RingState.enqueue (rb : RingState) (v : ℚ) : RingState :=
  if rb.capacity = 0 then rb
  else if rb.data.length < rb.capacity then { rb with data := rb.data ++ [v] }
  else { rb with data := rb.data.tail ++ [v] }

/-- Modelled from the spec: `RingBuffer::dequeue` pops and returns the oldest
item (0 on an empty buffer, a value the synthesis loop never relies on). -/
def RingState.dequeue (rb : RingState) : ℚ × RingState :=
  (rb.data.headD 0, { rb with data := rb.data.tail })

/-- Modelled from the spec: `RingBuffer::peek` reads the oldest item without
removing it. -/
def RingState.peek (rb : RingState) : ℚ := rb.data.headD 0

/-- The waveform selector (`WaveForms` constants in the engine). -/
inductive WaveForm where
  | SINE_WAVE
  | SAWTOOTH
  | SQUARE_WAVE
  | TRIANGLE
  | PWM
  | NOISE
  | KARPLUS_STRONG
deriving Repr, DecidableEq

/-- The engine-wide constants consumed by `synthevent.cpp`:
`AudioEngineProps::EVENT_CACHING`, `BUFFER_SIZE`, `OUTPUT_CHANNELS`,
`SAMPLE_RATE` and the sequencer-provided `AudioEngine::bytes_per_tick` and
`bytes_per_bar`. -/
structure Props where
  EVENT_CACHING : Bool
  BUFFER_SIZE : ℤ
  OUTPUT_CHANNELS : ℕ
  SAMPLE_RATE : ℚ
  bytes_per_tick : ℤ
  bytes_per_bar : ℤ
deriving Repr, DecidableEq

/-- External collaborators of the event core, passed as parameters:
`sin` (libm), the float constant `PI`, `randomFloat` (as a stream read off by
a counter), the arpeggiator capability (`peek`, `getStep`, `getPitchForStep`,
driven by an invocation counter), `ADSR::apply` (given the clone's decay and
buffer length), and the `BaseAudioEvent::mixBuffer` routine used by cached
playback. -/
structure Ext where
  sinQ : ℚ → ℚ
  piQ : ℚ
  rand : ℕ → ℚ
  arpPeekF : ℕ → Bool
  arpStepF : ℕ → ℕ
  arpPitchF : ℕ → ℚ → ℚ
  adsrApply : ℚ → ℤ → AudioBuffer → ℤ → AudioBuffer
  baseMixF : AudioBuffer → ℤ → AudioBuffer

/-- The mutable scalar state of one oscillator of a `SynthEvent`, as set up
by `SynthEvent::init` and mutated by the member functions.  An OSC2 child is
an `OscState` with `hasParent = true`; it owns no `AudioBuffer` and no OSC2
of its own (`createOSC2` passes the parent flag precisely to stop the
recursion, so the depth is at most two). -/
structure OscState where
  type : WaveForm
  frequency : ℚ
  baseFrequency : ℚ
  phase : ℚ
  phaseIncr : ℚ
  pwmValue : ℚ
  volume : ℚ
  ring : Option RingState
  ringBufferSize : ℤ
  cancel : Bool
  caching : Bool
  cachingCompleted : Bool
  autoCache : Bool
  bulkCacheable : Bool
  locked : Bool
  updateAfterUnlock : Bool
  isSequenced : Bool
  hasParent : Bool
  queuedForDeletion : Bool
  deleteMe : Bool
  hasMinLength : Bool
  position : ℤ
  length : ℚ
  sampleLength : ℤ
  sampleStart : ℤ
  sampleEnd : ℤ
  minLength : ℤ
  cacheWriteIndex : ℤ
  adsrBufferLength : ℤ
  adsrDecay : ℚ
  arpCounter : Option ℕ
deriving Repr, DecidableEq

/-- A full `SynthEvent`: its own oscillator state, the optional secondary
oscillator (OSC2) and the owned `_buffer` (null until `calculateBuffers`
allocates it; always null for an OSC2). -/
structure Event where
  core : OscState
  osc2 : Option OscState
  buffer : Option AudioBuffer
deriving Repr, DecidableEq

/-- The noise-refill loop of `initKarplusStrong`:
`for i in 0.._ringBufferSize: _ringBuffer->enqueue(randomFloat())`. -/
def ringFill (ext : Ext) : ℕ → RingState → ℕ → RingState × ℕ
  | 0, rb, rng => (rb, rng)
  | Nat.succ n, rb, rng => ringFill ext n (rb.enqueue (ext.rand rng)) (rng + 1)

/-- Embedding of `SynthEvent::initKarplusStrong`: the new ring size is
`(int)(SAMPLE_RATE / _frequency)` (truncation toward zero); a sequenced
event whose existing buffer has a stale size deletes and reallocates it, an
existing buffer is otherwise flushed (keeping its old capacity), and the
buffer is then refilled with `_ringBufferSize` noise samples. -/
def initKarplusStrong (ext : Ext) (props : Props) (st : OscState) (rng : ℕ) :
    OscState × ℕ :=
  let newSize : ℤ := ratTrunc (props.SAMPLE_RATE / st.frequency)
  let ring0 : Option RingState :=
    if st.isSequenced = true ∧ st.ring.isSome = true ∧ newSize ≠ st.ringBufferSize then none
    else st.ring
  let ring1 : RingState :=
    match ring0 with
    | none => { capacity := newSize.toNat, data := [] }
    | some rb => { rb with data := [] }
  let f := ringFill ext newSize.toNat ring1 rng
  ({ st with ringBufferSize := newSize, ring := some f.1 }, f.2)

/-- Embedding of the single-oscillator part of `SynthEvent::setFrequency`:
store the frequency, recompute `_phaseIncr = frequency / SAMPLE_RATE`,
optionally store the base frequency, and re-initialize the Karplus-Strong
ring buffer when that is the active waveform. -/
def setFrequencyCore (ext : Ext) (props : Props) (st : OscState) (f : ℚ)
    (storeAsBaseFrequency : Bool) (rng : ℕ) : OscState × ℕ :=
  let st1 := { st with frequency := f, phaseIncr := f / props.SAMPLE_RATE }
  let st2 := if storeAsBaseFrequency then { st1 with baseFrequency := f } else st1
  if st2.type = WaveForm.KARPLUS_STRONG then initKarplusStrong ext props st2 rng
  else (st2, rng)

/-- Embedding of `SynthEvent::setFrequency(value, allOscillators,
storeAsBaseFrequency)` on an event with an optional OSC2: when
`allOscillators` is set and OSC2 exists, OSC2's frequency is multiplied by
the deviation `value / currentFrequency` of the new frequency. -/
def setFrequencyFull (ext : Ext) (props : Props) (st : OscState)
    (o2 : Option OscState) (f : ℚ) (allOscillators storeAsBaseFrequency : Bool)
    (rng : ℕ) : OscState × Option OscState × ℕ :=
  let currentFreq := st.frequency
  let p := setFrequencyCore ext props st f storeAsBaseFrequency rng
  match o2, allOscillators with
  | some c, true =>
    let q := setFrequencyCore ext props c (c.frequency * (f / currentFreq))
      storeAsBaseFrequency p.2
    (p.1, some q.1, q.2)
  | _, _ => (p.1, o2, p.2)

theorem ringFill_capacity (ext : Ext) :
    ∀ n rb rng, (ringFill ext n rb rng).1.capacity = rb.capacity := by
  intro n
  induction n with
  | zero => intro rb rng; rfl
  | succ m ih =>
    intro rb rng
    rw [ringFill, ih]
    unfold RingState.enqueue
    by_cases h0 : rb.capacity = 0
    · rw [if_pos h0]
    · rw [if_neg h0]
      by_cases h1 : rb.data.length < rb.capacity
      · rw [if_pos h1]
      · rw [if_neg h1]

/-- C7 counterexample: with sample rate 10 and frequency 4 the code sizes a
fresh ring buffer at `(int)(10/4) = 2`, not `round(10/4) = 3`: the capacity
is the truncation of `sampleRate / frequency`, not its rounding. -/
theorem C7_ring_capacity_cex :
    ¬ ((initKarplusStrong
        { sinQ := fun _ => 0, piQ := 355/113, rand := fun _ => 1/2,
          arpPeekF := fun _ => false, arpStepF := fun k => k,
          arpPitchF := fun _ f => f, adsrApply := fun _ _ b _ => b,
          baseMixF := fun b _ => b }
        { EVENT_CACHING := false, BUFFER_SIZE := 8, OUTPUT_CHANNELS := 1,
          SAMPLE_RATE := 10, bytes_per_tick := 16, bytes_per_bar := 64 }
        { type := WaveForm.KARPLUS_STRONG, frequency := 4, baseFrequency := 4,
          phase := 0, phaseIncr := 2/5, pwmValue := 0, volume := 1,
          ring := none, ringBufferSize := 0, cancel := false, caching := false,
          cachingCompleted := false, autoCache := false, bulkCacheable := false,
          locked := false, updateAfterUnlock := false, isSequenced := true,
          hasParent := false, queuedForDeletion := false, deleteMe := false,
          hasMinLength := true, position := 0, length := 1, sampleLength := 16,
          sampleStart := 0, sampleEnd := 16, minLength := 2,
          cacheWriteIndex := 0, adsrBufferLength := 16, adsrDecay := 1,
          arpCounter := none }
        0).1.ring.elim 0 RingState.capacity = (qRound ((10:ℚ)/4)).toNat) := by
  have h1 : (qRound ((10:ℚ)/4)).toNat = 3 := by
    have h2 : qRound ((10:ℚ)/4) = 3 := by norm_num [qRound]
    rw [h2]; rfl
  rw [h1]
  norm_num [initKarplusStrong, ratTrunc, ringFill, RingState.enqueue, Option.elim]
  decide

/-- C7 (amended): whenever `initKarplusStrong` runs, the stored ring size
becomes `trunc(sampleRate / frequency)` (truncation toward zero, not
rounding); a fresh ring buffer, or the ring buffer of a *sequenced* event
whose truncated size changed, is (re)allocated at that capacity and refilled
with that many noise samples; an existing ring buffer of an unsequenced
event (or one whose truncated size is unchanged) keeps its old capacity and
is merely flushed and refilled. -/
theorem C7_ring_capacity_amended (ext : Ext) (props : Props) (st : OscState) (rng : ℕ) :
    ((initKarplusStrong ext props st rng).1.ringBufferSize =
      ratTrunc (props.SAMPLE_RATE / st.frequency)) ∧
    (st.ring = none →
      (initKarplusStrong ext props st rng).1.ring =
        some (ringFill ext (ratTrunc (props.SAMPLE_RATE / st.frequency)).toNat
          { capacity := (ratTrunc (props.SAMPLE_RATE / st.frequency)).toNat, data := [] }
          rng).1 ∧
      (initKarplusStrong ext props st rng).1.ring.elim 0 RingState.capacity =
        (ratTrunc (props.SAMPLE_RATE / st.frequency)).toNat) ∧
    (∀ rb, st.ring = some rb → st.isSequenced = true →
      ratTrunc (props.SAMPLE_RATE / st.frequency) ≠ st.ringBufferSize →
      (initKarplusStrong ext props st rng).1.ring.elim 0 RingState.capacity =
        (ratTrunc (props.SAMPLE_RATE / st.frequency)).toNat) ∧
    (∀ rb, st.ring = some rb →
      (st.isSequenced = false ∨ ratTrunc (props.SAMPLE_RATE / st.frequency) = st.ringBufferSize) →
      (initKarplusStrong ext props st rng).1.ring =
        some (ringFill ext (ratTrunc (props.SAMPLE_RATE / st.frequency)).toNat
          { rb with data := [] } rng).1 ∧
      (initKarplusStrong ext props st rng).1.ring.elim 0 RingState.capacity = rb.capacity) := by
  refine ⟨?_, ?_, ?_, ?_⟩
  · simp [initKarplusStrong]
  · intro hr
    unfold initKarplusStrong
    simp only [hr, Option.isSome_none]
    rw [if_neg (by simp)]
    constructor
    · rfl
    · simp [Option.elim, ringFill_capacity]
  · intro rb hr hseq hne
    simp only [initKarplusStrong]
    rw [if_pos (by simp [hr, hseq, hne])]
    simp [Option.elim, ringFill_capacity]
  · intro rb hr hcase
    have hcond : ¬ (st.isSequenced = true ∧ st.ring.isSome = true ∧
        ratTrunc (props.SAMPLE_RATE / st.frequency) ≠ st.ringBufferSize) := by
      rcases hcase with h | h
      · simp [h]
      · simp [h]
    simp only [initKarplusStrong]
    rw [if_neg hcond]
    simp only [hr]
    refine ⟨?_, by simp [Option.elim, ringFill_capacity]⟩
    first
    | rfl
    | trivial

/-- Witness for `C7_ring_capacity_amended`: a fresh Karplus-Strong ring at
sample rate 10 and frequency 5 gets capacity `trunc(10/5) = 2`. -/
theorem C7_ring_capacity_amended_witness :
    ((initKarplusStrong
        { sinQ := fun _ => 0, piQ := 355/113, rand := fun _ => 1/2,
          arpPeekF := fun _ => false, arpStepF := fun k => k,
          arpPitchF := fun _ f => f, adsrApply := fun _ _ b _ => b,
          baseMixF := fun b _ => b }
        { EVENT_CACHING := false, BUFFER_SIZE := 8, OUTPUT_CHANNELS := 1,
          SAMPLE_RATE := 10, bytes_per_tick := 16, bytes_per_bar := 64 }
        { type := WaveForm.KARPLUS_STRONG, frequency := 5, baseFrequency := 5,
          phase := 0, phaseIncr := 1/2, pwmValue := 0, volume := 1,
          ring := none, ringBufferSize := 0, cancel := false, caching := false,
          cachingCompleted := false, autoCache := false, bulkCacheable := false,
          locked := false, updateAfterUnlock := false, isSequenced := true,
          hasParent := false, queuedForDeletion := false, deleteMe := false,
          hasMinLength := true, position := 0, length := 1, sampleLength := 16,
          sampleStart := 0, sampleEnd := 16, minLength := 2,
          cacheWriteIndex := 0, adsrBufferLength := 16, adsrDecay := 1,
          arpCounter := none }
        0).1.ring.elim 0 RingState.capacity =
      (ratTrunc ((10:ℚ)/5)).toNat) ∧ (ratTrunc ((10:ℚ)/5)).toNat = 2 := by
  constructor
  · exact ((C7_ring_capacity_amended _ _ _ 0).2.1 rfl).2
  · have h2 : ratTrunc ((10:ℚ)/5) = 2 := by norm_num [ratTrunc]
    rw [h2]; rfl

/-- Embedding of `AudioBuffer::silenceBuffers`: every channel (up to
`amountOfChannels`) is reset to `bufferSize` zero samples; the pooled-memcpy
fast path and the `std::fill` path produce exactly the same contents. -/
def AudioBuffer.silenceBuffers (b : AudioBuffer) : AudioBuffer :=
  { b with
    channels := b.channels.enum.map
      (fun p => if p.1 < b.amountOfChannels then List.replicate b.bufferSize (0:ℚ) else p.2) }

/-- One write of the render loop: `buffer[c][i] = v` for every output
channel `c` (an assignment, not an addition).  A negative index cannot occur
in the C++ loop and is mapped to a no-op. -/
def writeAll (b : AudioBuffer) (i : ℤ) (v : ℚ) : AudioBuffer :=
  if 0 ≤ i then
    { b with
      channels := b.channels.enum.map
        (fun p => if p.1 < b.amountOfChannels then p.2.set i.toNat v else p.2) }
  else b

/-- The parabolic wave approximation shared by the sine and noise branches of
`SynthEvent::render` (before their per-branch scaling). -/
def parAmp (phase : ℚ) : ℚ :=
  if phase < 1/2 then 1 - (phase * 4 - 1) * (phase * 4 - 1)
  else (phase * 4 - 3) * (phase * 4 - 3) - 1

/-- One evaluation of the `switch (_type)` of `SynthEvent::render` at buffer
index `i`: returns the raw amplitude together with the updated oscillator
state (PWM updates its own phase and LFO value; Karplus-Strong updates the
ring buffer) and the updated random-stream position (noise consumes one
`randomFloat`). -/
def waveSample (ext : Ext) (props : Props) (st : OscState) (i : ℤ) (rng : ℕ) :
    ℚ × OscState × ℕ :=
  match st.type with
  | WaveForm.SINE_WAVE => (parAmp st.phase * (7/10), st, rng)
  | WaveForm.SAWTOOTH =>
    ((if st.phase < 0 then st.phase - ((ratTrunc (st.phase - 1) : ℤ) : ℚ)
      else st.phase - ((ratTrunc st.phase : ℤ) : ℚ)), st, rng)
  | WaveForm.SQUARE_WAVE =>
    ((if st.phase < 1/2 then
        1 - (2 * ext.piQ * (st.phase * 4 - 1)) * (2 * ext.piQ * (st.phase * 4 - 1))
      else (2 * ext.piQ * (st.phase * 4 - 3)) * (2 * ext.piQ * (st.phase * 4 - 3)) - 1) *
        (1/100), st, rng)
  | WaveForm.TRIANGLE =>
    (((fun a => if a < 0 then -a else a)
        (if st.phase < 1/2 then (1 - (st.phase * 4 - 1) * (st.phase * 4 - 1)) * (3/4)
         else ((st.phase * 4 - 3) * (st.phase * 4 - 3) - 1) * (3/4))), st, rng)
  | WaveForm.PWM =>
    let pwm1 := st.pwmValue + 1
    let dpw := ext.sinQ (((i : ℚ) + pwm1) / 18432) * (ext.piQ / (21/20))
    let amp : ℚ := if st.phase < ext.piQ - dpw then 3/40 else -(3/40)
    let ph1 := st.phase + (2 * ext.piQ / props.SAMPLE_RATE) * st.frequency
    (amp * 4,
      { st with
        pwmValue := pwm1
        phase := if ph1 > 2 * ext.piQ then ph1 - 2 * ext.piQ else ph1 }, rng)
  | WaveForm.NOISE => (parAmp st.phase * ext.rand rng, st, rng + 1)
  | WaveForm.KARPLUS_STRONG =>
    match st.ring with
    | some rb =>
      let d := rb.dequeue
      let rb2 := d.2.enqueue ((99/100) * ((d.1 + d.2.peek) / 2))
      (rb2.peek, { st with ring := some rb2 }, rng)
    | none => (0, st, rng)

/-- The shared phase-accumulator update of the render loop (all waveforms but
PWM): advance by `_phaseIncr` and wrap at `MAX_PHASE = 1`. -/
def phaseAdvance (st : OscState) : OscState :=
  let p := st.phase + st.phaseIncr
  { st with phase := if p > 1 then p - 1 else p }

/-- The per-sample arpeggiator update of the render loop: when an arpeggiator
is present and `peek()` signals a step boundary, set the frequency for the
current step relative to the base frequency (`allOscillators = true`,
`storeAsBaseFrequency = false`). -/
def arpTick (ext : Ext) (props : Props) (st : OscState) (o2 : Option OscState)
    (rng : ℕ) : OscState × Option OscState × ℕ :=
  match st.arpCounter with
  | none => (st, o2, rng)
  | some k =>
    if ext.arpPeekF k then
      let p := setFrequencyFull ext props st o2
        (ext.arpPitchF (ext.arpStepF k) st.baseFrequency) true false rng
      ({ p.1 with arpCounter := some (k + 1) }, p.2.1, p.2.2)
    else ({ st with arpCounter := some (k + 1) }, o2, rng)

/-- Result of the sample loop of `SynthEvent::render`: the final oscillator
(and OSC2) state, the written buffer, the random-stream position, the list of
buffer indices actually written (ghost state used by the theorems; each entry
was assigned in every output channel) and the final value of the loop
variable `i`. -/
structure LoopOut where
  st : OscState
  osc2 : Option OscState
  buf : AudioBuffer
  rng : ℕ
  written : List ℤ
  finalI : ℤ
deriving Repr, DecidableEq

/-- The sample loop of `SynthEvent::render`, iterating `rem` times from
index `i` (so `rem = renderEndOffset - i`): compute the waveform amplitude,
advance the shared phase (non-PWM), run the arpeggiator, halve the amplitude
when OSC2 exists, write `amp * _volume` to every channel at `i`, and break
immediately after the write when `_cancel` is set. -/
def renderLoop (ext : Ext) (props : Props) :
    OscState → Option OscState → AudioBuffer → ℕ → ℤ → ℕ → LoopOut
  | st, o2, buf, rng, i, 0 => ⟨st, o2, buf, rng, [], i⟩
  | st, o2, buf, rng, i, Nat.succ rem =>
    let w := waveSample ext props st i rng
    let st1 := if st.type ≠ WaveForm.PWM then phaseAdvance w.2.1 else w.2.1
    let a := arpTick ext props st1 o2 w.2.2
    let amp := if a.2.1.isSome then w.1 * (1/2) else w.1
    let buf2 := writeAll buf i (amp * a.1.volume)
    if a.1.cancel then ⟨a.1, a.2.1, buf2, a.2.2, [i], i⟩
    else
      let r := renderLoop ext props a.1 a.2.1 buf2 a.2.2 (i + 1) rem
      ⟨r.st, r.osc2, r.buf, r.rng, i :: r.written, r.finalI⟩

/-- Result of one call to `SynthEvent::render` (or to a continuation standing
in for it when the cooperative-restart fuel is exhausted). -/
structure RenderOut where
  ev : Event
  buf : AudioBuffer
  rng : ℕ
  written : List ℤ
  finalI : ℤ
deriving Repr, DecidableEq

/-- Modelled from the spec: `BaseCacheableAudioEvent::resetCache` (declared
outside these source files).  The spec's caching state machine (§4.6) and the
call-site comment ("cancels might otherwise remain permanent") imply it
returns the event to the un-cached state: caching-completed cleared, cache
write index rewound, pending cancel cleared. -/
def resetCacheOsc (st : OscState) : OscState :=
  { st with cachingCompleted := false, cacheWriteIndex := 0, cancel := false }

/-- `SynthEvent::resetCache`: reset this event's cache state and OSC2's. -/
def resetCacheEvent (E : Event) : Event :=
  { E with
    core := resetCacheOsc E.core
    osc2 := E.osc2.map resetCacheOsc }

/-- The tail of `SynthEvent::render` after the sample loop, operating on the
loop's result `L`: the OSC2 transient render and merge at the render start
offset with gain `MAX_PHASE = 1`, the envelope application and
cache-write-index advance (parent events only), the caching epilogue
(including the `calculateBuffers` restart when a cancel was pending), and the
final unconditional `_cancel = false`. -/
def renderEpilogue (ext : Ext) (props : Props)
    (childRender : Event → AudioBuffer → ℕ → RenderOut)
    (restart : Event → ℕ → Event × ℕ)
    (buffer0 : Option AudioBuffer) (hasOSC2 : Bool)
    (renderStartOffset renderEndOffset maxSampleIndex bufferLength : ℤ)
    (L : LoopOut) : RenderOut :=
  let step2 : Option OscState × AudioBuffer × ℕ :=
    if hasOSC2 = true ∧ L.st.cancel = false then
      match L.osc2 with
      | some c =>
        let tempLength : ℤ :=
          if props.EVENT_CACHING = true ∧ L.st.isSequenced = true then
            renderEndOffset - L.st.cacheWriteIndex
          else bufferLength
        let temp := newAudioBuffer L.buf.amountOfChannels tempLength.toNat
        let r := childRender { core := c, osc2 := none, buffer := none } temp L.rng
        (some r.ev.core,
          (L.buf.mergeBuffers (some r.buf) 0 renderStartOffset.toNat 1).1, r.rng)
      | none => (none, L.buf, L.rng)
    else (L.osc2, L.buf, L.rng)
  let st2 :=
    if L.st.hasParent = false then
      { L.st with cacheWriteIndex := L.st.cacheWriteIndex + L.finalI }
    else L.st
  let buf3 :=
    if L.st.hasParent = false then
      ext.adsrApply L.st.adsrDecay L.st.adsrBufferLength step2.2.1 L.st.cacheWriteIndex
    else step2.2.1
  let E2 : Event := { core := st2, osc2 := step2.1, buffer := buffer0 }
  let out : Event × ℕ :=
    if props.EVENT_CACHING = true ∧ st2.isSequenced = true then
      let E2a : Event := { E2 with core := { E2.core with caching := false } }
      if st2.cancel = true then restart E2a step2.2.2
      else
        let c1 := if L.finalI = maxSampleIndex then
            { E2a.core with cachingCompleted := true } else E2a.core
        let c2 := if c1.bulkCacheable = true then { c1 with autoCache := true } else c1
        ({ E2a with core := c2 }, step2.2.2)
    else (E2, step2.2.2)
  ⟨{ out.1 with core := { out.1.core with cancel := false } }, buf3, out.2, L.written, L.finalI⟩

/-- The body of `SynthEvent::render`, parameterized by the recursive calls it
can make: `childRender` for `_osc2->render(tempBuffer)` and `restart` for the
`calculateBuffers()` re-entry when a cancel was requested in caching mode.
Compute the render window from `_cacheWriteIndex` (caching mode, sequenced)
or 0, clip it to `_sampleLength - 1` pre-silencing the whole buffer when
clipped, run the sample loop, then run `renderEpilogue`. -/
def renderBody (ext : Ext) (props : Props)
    (childRender : Event → AudioBuffer → ℕ → RenderOut)
    (restart : Event → ℕ → Event × ℕ)
    (E : Event) (buf : AudioBuffer) (rng : ℕ) : RenderOut :=
  let st := E.core
  let bufferLength : ℤ := (buf.bufferSize : ℤ)
  let hasOSC2 := E.osc2.isSome
  let renderStartOffset : ℤ :=
    if props.EVENT_CACHING = true ∧ st.isSequenced = true then st.cacheWriteIndex else 0
  let maxSampleIndex : ℤ := st.sampleLength - 1
  let renderEndOffset : ℤ :=
    if renderStartOffset + bufferLength > maxSampleIndex then maxSampleIndex
    else renderStartOffset + bufferLength
  let buf1 :=
    if renderStartOffset + bufferLength > maxSampleIndex then buf.silenceBuffers else buf
  renderEpilogue ext props childRender restart E.buffer hasOSC2
    renderStartOffset renderEndOffset maxSampleIndex bufferLength
    (renderLoop ext props st E.osc2 buf1 rng renderStartOffset
      ((renderEndOffset - renderStartOffset).toNat))

/-- The body of `SynthEvent::calculateBuffers`, parameterized by the `render`
call that `cache(false)` can make.  Locked events defer via
`_updateAfterUnlock`.  Sequenced geometry:
`sampleLength = (int)(length * bytes_per_tick)`,
`sampleStart = position * bytes_per_tick`,
`sampleEnd = sampleStart + sampleLength`; a pending cache render requests
cancellation first.  Live events get the minimum ring-out length
`bytes_per_bar / 32` and nominal length `bytes_per_bar`.  The owned buffer is
(re)allocated only when the length changed or no buffer exists, never for an
OSC2; Karplus-Strong events re-init the ring buffer; with event caching on,
the cache is reset and `_autoCache` triggers `cache(false)` (which is a
no-op when `_buffer` is null). -/
def calcTail (ext : Ext) (props : Props)
    (render : Event → AudioBuffer → ℕ → RenderOut)
    (st2 : OscState) (E2 : Event) (rng : ℕ) : Event × ℕ :=
  if st2.isSequenced = true then
    let p2 : OscState × ℕ :=
      if st2.type = WaveForm.KARPLUS_STRONG then initKarplusStrong ext props st2 rng
      else (st2, rng)
    let E3 : Event := { E2 with core := p2.1 }
    if props.EVENT_CACHING = true then
      let E4 := resetCacheEvent E3
      if E4.core.autoCache = true ∧ E4.core.hasParent = false then
        if E4.core.caching = false then
          match E4.buffer with
          | none => (E4, p2.2)
          | some b =>
            let E5 : Event := { E4 with core := { E4.core with caching := true } }
            let r := render E5 b p2.2
            ({ r.ev with buffer := some r.buf }, r.rng)
        else ({ E4 with core := { E4.core with cancel := true } }, p2.2)
      else (E4, p2.2)
    else (E3, p2.2)
  else (E2, rng)

def calcBody (ext : Ext) (props : Props)
    (render : Event → AudioBuffer → ℕ → RenderOut)
    (E : Event) (rng : ℕ) : Event × ℕ :=
  if E.core.locked = true then
    ({ E with core := { E.core with updateAfterUnlock := true } }, rng)
  else
    let p1 : OscState × ℤ :=
      if E.core.isSequenced = true then
        let stc := if E.core.caching = true then { E.core with cancel := true } else E.core
        let sl := ratTrunc (stc.length * (props.bytes_per_tick : ℚ))
        let ss := stc.position * props.bytes_per_tick
        ({ stc with
            sampleLength := sl
            sampleStart := ss
            sampleEnd := ss + sl },
          E.core.sampleLength)
      else
        ({ E.core with
            minLength := Int.tdiv props.bytes_per_bar 32
            sampleLength := props.bytes_per_bar
            hasMinLength := false },
          props.BUFFER_SIZE)
    let st2 := { p1.1 with adsrBufferLength := p1.1.sampleLength }
    let E2 : Event :=
      if st2.sampleLength ≠ p1.2 ∨ E.buffer = none then
        if st2.hasParent = false then
          { core := st2, osc2 := E.osc2,
            buffer := some (newAudioBuffer props.OUTPUT_CHANNELS
              (if props.EVENT_CACHING = true ∧ st2.isSequenced = true then
                st2.sampleLength.toNat
               else props.BUFFER_SIZE.toNat)) }
        else { core := st2, osc2 := E.osc2, buffer := none }
      else { core := st2, osc2 := E.osc2, buffer := E.buffer }
    calcTail ext props render st2 E2 rng

mutual

/-- `SynthEvent::render`, with a fuel bound on the mutual recursion through
the cooperative cancel-restart path (`render → calculateBuffers → cache →
render`) and through `_osc2->render`; at fuel 0 the sub-calls degrade to
no-ops, which no theorem below relies on. -/
def renderEvent (ext : Ext) (props : Props) : ℕ → Event → AudioBuffer → ℕ → RenderOut
  | 0, E, buf, rng =>
    renderBody ext props (fun E2 b r => ⟨E2, b, r, [], 0⟩) (fun E2 r => (E2, r)) E buf rng
  | Nat.succ n, E, buf, rng =>
    renderBody ext props (fun E2 b r => renderEvent ext props n E2 b r)
      (fun E2 r => calculateBuffersF ext props n E2 r) E buf rng

/-- `SynthEvent::calculateBuffers`, with the same fuel discipline for the
`cache(false) → doCache → render` call it can make. -/
def calculateBuffersF (ext : Ext) (props : Props) : ℕ → Event → ℕ → Event × ℕ
  | 0, E, rng => calcBody ext props (fun E2 b r => ⟨E2, b, r, [], 0⟩) E rng
  | Nat.succ n, E, rng => calcBody ext props (fun E2 b r => renderEvent ext props n E2 b r) E rng

end

/-- The overlap test of the streaming branch of `SynthEvent::mixBuffer`,
exactly as the code writes it:
`(bufferPos >= _sampleStart || bufferEndPos > _sampleStart) && bufferPos < _sampleEnd`. -/
def streamGuard (props : Props) (st : OscState) (bufferPos : ℤ) : Prop :=
  (bufferPos ≥ st.sampleStart ∨ bufferPos + props.BUFFER_SIZE > st.sampleStart) ∧
    bufferPos < st.sampleEnd

instance (props : Props) (st : OscState) (bufferPos : ℤ) :
    Decidable (streamGuard props st bufferPos) := by
  unfold streamGuard; infer_instance

/-- Embedding of `SynthEvent::mixBuffer`.  With event caching enabled it
delegates to the external `BaseAudioEvent::mixBuffer` (a parameter);
otherwise the streaming branch renders the overlapping slice into the
event's own buffer and additively merges it into the output at the correct
offset, then resets geometry once the cache write index passes the event
length.  A null `_buffer` (impossible for a live streaming event) is mapped
to a no-op. -/
def mixBufferF (fuel : ℕ) (ext : Ext) (props : Props) (E : Event)
    (outputBuffer : AudioBuffer) (bufferPos : ℤ) (rng : ℕ) :
    Event × AudioBuffer × ℕ :=
  if props.EVENT_CACHING = true then (E, ext.baseMixF outputBuffer bufferPos, rng)
  else
    if streamGuard props E.core bufferPos then
      let cwi : ℤ :=
        if E.core.sampleStart > bufferPos then 0 else bufferPos - E.core.sampleStart
      let wOff : ℤ :=
        if E.core.sampleStart > bufferPos then E.core.sampleStart - bufferPos else 0
      let E1 : Event := { E with core := { E.core with cacheWriteIndex := cwi } }
      match E1.buffer with
      | none => (E1, outputBuffer, rng)
      | some b =>
        let r := renderEvent ext props fuel E1 b rng
        let E2 : Event := { r.ev with buffer := some r.buf }
        let out2 := (outputBuffer.mergeBuffers (some r.buf) 0 wOff.toNat 1).1
        if E2.core.cacheWriteIndex ≥ E2.core.sampleLength then
          let p := calculateBuffersF ext props fuel E2 r.rng
          (p.1, out2, p.2)
        else (E2, out2, r.rng)
    else (E, outputBuffer, rng)

/-- Embedding of `SynthEvent::setDeletable`: sequenced events and events that
rendered their minimum length are marked for immediate deletion, others are
queued; OSC2 follows. -/
def setDeletableOsc (st : OscState) (value : Bool) : OscState :=
  if st.isSequenced = true ∨ st.hasMinLength = true then { st with deleteMe := value }
  else { st with queuedForDeletion := value }

/-- `setDeletable` on the full event, propagating to OSC2. -/
def setDeletableEvent (E : Event) (value : Bool) : Event :=
  { E with
    core := setDeletableOsc E.core value
    osc2 := E.osc2.map (fun c => setDeletableOsc c value) }

/-- Multiply sample `i` of every channel by `g` (the body of the fade loop of
`SynthEvent::synthesize`). -/
def scaleAll (b : AudioBuffer) (i : ℤ) (g : ℚ) : AudioBuffer :=
  if 0 ≤ i then
    { b with
      channels := b.channels.enum.map
        (fun p => if p.1 < b.amountOfChannels then
            p.2.set i.toNat (p.2.getD i.toNat 0 * g)
          else p.2) }
  else b

/-- The fade loop of `SynthEvent::synthesize`: scale index `i` by the running
gain `amp`, then decrement the gain by `envIncr` and continue. -/
def fadeLoop (envIncr : ℚ) : ℕ → ℤ → ℚ → AudioBuffer → AudioBuffer
  | 0, _, _, b => b
  | Nat.succ n, i, amp, b => fadeLoop envIncr n (i + 1) (amp - envIncr) (scaleAll b i amp)

/-- The fade-out of `SynthEvent::synthesize` over indices
`[start, stop)` starting at gain `amp = MAX_PHASE = 1`. -/
def applyFade (b : AudioBuffer) (start stop : ℤ) (amp envIncr : ℚ) : AudioBuffer :=
  fadeLoop envIncr (stop - start).toNat start amp b

/-- Embedding of `SynthEvent::synthesize(aBufferLength)`: reallocate the
buffer when the requested length differs from the engine buffer size, render
into it, charge the rendered length against the minimum ring-out length when
deletion is queued, and once the minimum length is exhausted flag the event
deletable and — if deletion was queued — apply a linear fade over the
trailing `ceil(aBufferLength / 4)` samples (integer division, so exactly the
trailing quarter whenever 4 divides the length), starting at gain 1 and
decrementing by `1 / amt` per sample.  A null `_buffer` is outside the
modelled domain. -/
def synthesizeF (fuel : ℕ) (ext : Ext) (props : Props) (E : Event)
    (aBufferLength : ℤ) (rng : ℕ) : Event × AudioBuffer × ℕ :=
  let E1 : Event :=
    if aBufferLength ≠ props.BUFFER_SIZE then
      { E with buffer := some (newAudioBuffer props.OUTPUT_CHANNELS aBufferLength.toNat) }
    else E
  match E1.buffer with
  | none => (E1, newAudioBuffer props.OUTPUT_CHANNELS 0, rng)
  | some b =>
    let r := renderEvent ext props fuel E1 b rng
    let st := r.ev.core
    let st1 :=
      if st.queuedForDeletion = true ∧ st.minLength > 0 then
        { st with minLength := st.minLength - aBufferLength }
      else st
    if st1.minLength ≤ 0 then
      let st2 := { st1 with hasMinLength := true }
      let E2 := setDeletableEvent { core := st2, osc2 := r.ev.osc2, buffer := some r.buf }
        st2.queuedForDeletion
      if E2.core.queuedForDeletion = true then
        let amt : ℤ := Int.tdiv aBufferLength 4
        let faded := applyFade r.buf (aBufferLength - amt) aBufferLength 1 (1 / (amt : ℚ))
        ({ E2 with buffer := some faded }, faded, r.rng)
      else (E2, r.buf, r.rng)
    else ({ core := st1, osc2 := r.ev.osc2, buffer := some r.buf }, r.buf, r.rng)

/- ### Shape lemmas: which fields each state transformer can touch -/

theorem initKarplusStrong_shape (ext : Ext) (props : Props) (st : OscState) (rng : ℕ) :
    ∃ rg rbs, (initKarplusStrong ext props st rng).1 =
      { st with ring := rg, ringBufferSize := rbs } := by
  exact ⟨_, _, rfl⟩

theorem setFrequencyCore_shape (ext : Ext) (props : Props) (st : OscState) (f : ℚ)
    (sb : Bool) (rng : ℕ) :
    ∃ fr pi bf rg rbs, (setFrequencyCore ext props st f sb rng).1 =
      { st with
        frequency := fr
        phaseIncr := pi
        baseFrequency := bf
        ring := rg
        ringBufferSize := rbs } := by
  simp only [setFrequencyCore]
  split <;> split <;> exact ⟨_, _, _, _, _, rfl⟩

theorem waveSample_shape (ext : Ext) (props : Props) (st : OscState) (i : ℤ) (rng : ℕ) :
    ∃ ph pw rg, (waveSample ext props st i rng).2.1 =
      { st with phase := ph, pwmValue := pw, ring := rg } := by
  simp only [waveSample]
  split
  · exact ⟨_, _, _, rfl⟩
  · exact ⟨_, _, _, rfl⟩
  · exact ⟨_, _, _, rfl⟩
  · exact ⟨_, _, _, rfl⟩
  · exact ⟨_, _, _, rfl⟩
  · exact ⟨_, _, _, rfl⟩
  · split
    · exact ⟨_, _, _, rfl⟩
    · exact ⟨_, _, _, rfl⟩

theorem arpTick_shape (ext : Ext) (props : Props) (st : OscState) (o2 : Option OscState)
    (rng : ℕ) :
    ∃ fr pi bf rg rbs ac, (arpTick ext props st o2 rng).1 =
      { st with
        frequency := fr
        phaseIncr := pi
        baseFrequency := bf
        ring := rg
        ringBufferSize := rbs
        arpCounter := ac } := by
  simp only [arpTick]
  split
  · exact ⟨_, _, _, _, _, _, rfl⟩
  · split
    · simp only [setFrequencyFull]
      obtain ⟨fr, pi, bf, rg, rbs, h⟩ := setFrequencyCore_shape ext props st
        (ext.arpPitchF (ext.arpStepF _) st.baseFrequency) false rng
      split
      · rw [h]
        exact ⟨_, _, _, _, _, _, rfl⟩
      · rw [h]
        exact ⟨_, _, _, _, _, _, rfl⟩
    · exact ⟨_, _, _, _, _, _, rfl⟩

/-- The sample loop only ever touches the phase accumulator, the PWM LFO
value, the ring buffer, and (through the arpeggiator) the frequency fields
and the arpeggiator position: every other field of the oscillator state is
preserved. -/
theorem renderLoop_shape (ext : Ext) (props : Props) :
    ∀ rem st o2 buf rng i, ∃ ph pw rg rbs fr pi bf ac,
      (renderLoop ext props st o2 buf rng i rem).st =
        { st with
          phase := ph
          pwmValue := pw
          ring := rg
          ringBufferSize := rbs
          frequency := fr
          phaseIncr := pi
          baseFrequency := bf
          arpCounter := ac } := by
  intro rem
  induction rem with
  | zero =>
    intro st o2 buf rng i
    exact ⟨_, _, _, _, _, _, _, _, rfl⟩
  | succ n ih =>
    intro st o2 buf rng i
    simp only [renderLoop]
    obtain ⟨ph1, pw1, rg1, hw⟩ := waveSample_shape ext props st i rng
    have hst1 : ∃ ph pw rg,
        (if st.type ≠ WaveForm.PWM then phaseAdvance (waveSample ext props st i rng).2.1
         else (waveSample ext props st i rng).2.1) =
          { st with phase := ph, pwmValue := pw, ring := rg } := by
      split
      · rw [hw]
        exact ⟨_, _, _, rfl⟩
      · rw [hw]
        exact ⟨_, _, _, rfl⟩
    obtain ⟨ph2, pw2, rg2, hst1⟩ := hst1
    rw [hst1]
    obtain ⟨fr3, pi3, bf3, rg3, rbs3, ac3, ha⟩ := arpTick_shape ext props
      { st with phase := ph2, pwmValue := pw2, ring := rg2 } o2
      (waveSample ext props st i rng).2.2
    rw [ha]
    split
    · exact ⟨_, _, _, _, _, _, _, _, rfl⟩
    · obtain ⟨q1, q2, q3, q4, q5, q6, q7, q8, hr⟩ := ih
        { st with
          phase := ph2
          pwmValue := pw2
          frequency := fr3
          phaseIncr := pi3
          baseFrequency := bf3
          ring := rg3
          ringBufferSize := rbs3
          arpCounter := ac3 }
        (arpTick ext props { st with phase := ph2, pwmValue := pw2, ring := rg2 } o2
          (waveSample ext props st i rng).2.2).2.1
        _ _ _
      rw [hr]
      exact ⟨_, _, _, _, _, _, _, _, rfl⟩

/-- A concrete external-collaborator instance used by witnesses: a zero
`sin`, a rational `PI`, a constant noise stream, an inactive arpeggiator
contract, an identity envelope and an identity base mix. -/
def extSample : Ext :=
  { sinQ := fun _ => 0, piQ := 355/113, rand := fun _ => 1/2,
    arpPeekF := fun _ => false, arpStepF := fun k => k, arpPitchF := fun _ f => f,
    adsrApply := fun _ _ b _ => b, baseMixF := fun b _ => b }

/-- A concrete engine configuration used by witnesses: streaming mode with a
4-frame callback buffer. -/
def propsSample : Props :=
  { EVENT_CACHING := false, BUFFER_SIZE := 4, OUTPUT_CHANNELS := 1, SAMPLE_RATE := 8,
    bytes_per_tick := 16, bytes_per_bar := 64 }

/-- A concrete oscillator state used by witnesses: a live sawtooth event at
phase 0 with a phase increment of 1/8 and full volume. -/
def oscSample : OscState :=
  { type := WaveForm.SAWTOOTH, frequency := 1, baseFrequency := 1, phase := 0,
    phaseIncr := 1/8, pwmValue := 0, volume := 1, ring := none, ringBufferSize := 0,
    cancel := false, caching := false, cachingCompleted := false, autoCache := false,
    bulkCacheable := false, locked := false, updateAfterUnlock := false,
    isSequenced := false, hasParent := false, queuedForDeletion := false,
    deleteMe := false, hasMinLength := true, position := 0, length := 1,
    sampleLength := 100, sampleStart := 0, sampleEnd := 100, minLength := 2,
    cacheWriteIndex := 0, adsrBufferLength := 100, adsrDecay := 1, arpCounter := none }

/-- C6: every call to `SynthEvent::render` leaves `_cancel` false on return:
`_cancel = false` is the unconditional last statement of the function, after
the caching epilogue and any `calculateBuffers` restart it may have
triggered, so the next pass always starts clean. -/
theorem C6_render_clears_cancel (ext : Ext) (props : Props) (fuel : ℕ) (E : Event)
    (buf : AudioBuffer) (rng : ℕ) :
    (renderEvent ext props fuel E buf rng).ev.core.cancel = false := by
  cases fuel <;> rfl

/-- C5: in streaming mode the guard of `mixBuffer` is exactly the window
overlap `bufferPos < sampleEnd ∧ bufferPos + BUFFER_SIZE > sampleStart`
(given `BUFFER_SIZE > 0` the code's disjunct `bufferPos >= sampleStart` is
subsumed by `bufferEndPos > sampleStart`); when the window does not overlap,
the output buffer and the event are left unchanged; when it overlaps, the
output is the additive merge of the freshly rendered slice at offset
`max(sampleStart - bufferPos, 0)`. -/
theorem C5_mixBuffer_streaming (fuel : ℕ) (ext : Ext) (props : Props) (E : Event)
    (outputBuffer : AudioBuffer) (bufferPos : ℤ) (rng : ℕ)
    (hEC : props.EVENT_CACHING = false) (hB : 0 < props.BUFFER_SIZE) :
    (streamGuard props E.core bufferPos ↔
      (bufferPos < E.core.sampleEnd ∧ bufferPos + props.BUFFER_SIZE > E.core.sampleStart)) ∧
    (¬ (bufferPos < E.core.sampleEnd ∧ bufferPos + props.BUFFER_SIZE > E.core.sampleStart) →
      (mixBufferF fuel ext props E outputBuffer bufferPos rng).2.1 = outputBuffer ∧
      (mixBufferF fuel ext props E outputBuffer bufferPos rng).1 = E) ∧
    (∀ b, E.buffer = some b → streamGuard props E.core bufferPos →
      (mixBufferF fuel ext props E outputBuffer bufferPos rng).2.1 =
        (outputBuffer.mergeBuffers
          (some (renderEvent ext props fuel
            { E with core := { E.core with cacheWriteIndex :=
                if E.core.sampleStart > bufferPos then 0
                else bufferPos - E.core.sampleStart } } b rng).buf)
          0 (if E.core.sampleStart > bufferPos then E.core.sampleStart - bufferPos
             else 0).toNat 1).1) := by
  have hiff : streamGuard props E.core bufferPos ↔
      (bufferPos < E.core.sampleEnd ∧ bufferPos + props.BUFFER_SIZE > E.core.sampleStart) := by
    unfold streamGuard
    constructor <;> intro h <;> omega
  refine ⟨hiff, ?_, ?_⟩
  · intro hno
    have hg : ¬ streamGuard props E.core bufferPos := fun h => hno (hiff.mp h)
    simp only [mixBufferF, hEC]
    rw [if_neg hg]
    exact ⟨rfl, rfl⟩
  · intro b hb hg
    simp only [mixBufferF, hEC, hb]
    rw [if_neg (show ¬ (false = true) by simp)]
    rw [if_pos hg]
    split <;> split <;> rfl

/-- Witness for `C5_mixBuffer_streaming` at concrete inputs: the guard is the
overlap condition for the sample event, and at `bufferPos = 990` (far past
`sampleEnd = 100`) the output buffer is untouched. -/
theorem C5_mixBuffer_streaming_witness :
    (streamGuard propsSample oscSample 0 ↔
      ((0:ℤ) < oscSample.sampleEnd ∧ (0:ℤ) + propsSample.BUFFER_SIZE > oscSample.sampleStart)) ∧
    (mixBufferF 1 extSample propsSample
        { core := oscSample, osc2 := none, buffer := some (newAudioBuffer 1 4) }
        (newAudioBuffer 1 4) 990 0).2.1 = newAudioBuffer 1 4 := by
  constructor
  · exact (C5_mixBuffer_streaming 1 extSample propsSample
      { core := oscSample, osc2 := none, buffer := some (newAudioBuffer 1 4) }
      (newAudioBuffer 1 4) 0 0 rfl (by decide)).1
  · exact ((C5_mixBuffer_streaming 1 extSample propsSample
      { core := oscSample, osc2 := none, buffer := some (newAudioBuffer 1 4) }
      (newAudioBuffer 1 4) 990 0 rfl (by decide)).2.1 (by decide)).1

/-- The geometry invariant of a sequenced event:
`sampleEnd - sampleStart = sampleLength`. -/
def geomInv (st : OscState) : Prop := st.sampleEnd - st.sampleStart = st.sampleLength

/-- All fields of the oscillator state outside `renderLoop_shape`'s footprint
are preserved by the sample loop. -/
theorem renderLoop_core_frame (ext : Ext) (props : Props) (rem : ℕ) (st : OscState)
    (o2 : Option OscState) (buf : AudioBuffer) (rng : ℕ) (i : ℤ) :
    (renderLoop ext props st o2 buf rng i rem).st.sampleStart = st.sampleStart ∧
    (renderLoop ext props st o2 buf rng i rem).st.sampleEnd = st.sampleEnd ∧
    (renderLoop ext props st o2 buf rng i rem).st.sampleLength = st.sampleLength ∧
    (renderLoop ext props st o2 buf rng i rem).st.isSequenced = st.isSequenced ∧
    (renderLoop ext props st o2 buf rng i rem).st.locked = st.locked ∧
    (renderLoop ext props st o2 buf rng i rem).st.hasParent = st.hasParent ∧
    (renderLoop ext props st o2 buf rng i rem).st.cancel = st.cancel ∧
    (renderLoop ext props st o2 buf rng i rem).st.caching = st.caching ∧
    (renderLoop ext props st o2 buf rng i rem).st.queuedForDeletion = st.queuedForDeletion ∧
    (renderLoop ext props st o2 buf rng i rem).st.minLength = st.minLength ∧
    (renderLoop ext props st o2 buf rng i rem).st.hasMinLength = st.hasMinLength ∧
    (renderLoop ext props st o2 buf rng i rem).st.volume = st.volume ∧
    (renderLoop ext props st o2 buf rng i rem).st.cacheWriteIndex = st.cacheWriteIndex ∧
    (renderLoop ext props st o2 buf rng i rem).st.cachingCompleted = st.cachingCompleted ∧
    (renderLoop ext props st o2 buf rng i rem).st.autoCache = st.autoCache ∧
    (renderLoop ext props st o2 buf rng i rem).st.bulkCacheable = st.bulkCacheable ∧
    (renderLoop ext props st o2 buf rng i rem).st.type = st.type ∧
    (renderLoop ext props st o2 buf rng i rem).st.deleteMe = st.deleteMe ∧
    (renderLoop ext props st o2 buf rng i rem).st.updateAfterUnlock = st.updateAfterUnlock ∧
    (renderLoop ext props st o2 buf rng i rem).st.adsrDecay = st.adsrDecay ∧
    (renderLoop ext props st o2 buf rng i rem).st.adsrBufferLength = st.adsrBufferLength := by
  obtain ⟨ph, pw, rg, rbs, fr, pi, bf, ac, h⟩ := renderLoop_shape ext props rem st o2 buf rng i
  rw [h]
  exact ⟨rfl, rfl, rfl, rfl, rfl, rfl, rfl, rfl, rfl, rfl, rfl, rfl, rfl, rfl, rfl, rfl,
    rfl, rfl, rfl, rfl, rfl⟩

/-- The epilogue of `render` preserves the geometry invariant, sequencing
and unlockedness, provided the `restart` continuation does. -/
theorem renderEpilogue_geom (ext : Ext) (props : Props)
    (childRender : Event → AudioBuffer → ℕ → RenderOut)
    (restart : Event → ℕ → Event × ℕ)
    (hres : ∀ E2 r, E2.core.isSequenced = true → E2.core.locked = false →
      geomInv E2.core →
      geomInv (restart E2 r).1.core ∧ (restart E2 r).1.core.isSequenced = true ∧
        (restart E2 r).1.core.locked = false)
    (buffer0 : Option AudioBuffer) (hasOSC2 : Bool)
    (rs re mx bl : ℤ) (L : LoopOut)
    (hseq : L.st.isSequenced = true) (hlock : L.st.locked = false)
    (hinv : geomInv L.st) :
    geomInv (renderEpilogue ext props childRender restart buffer0 hasOSC2
      rs re mx bl L).ev.core ∧
    (renderEpilogue ext props childRender restart buffer0 hasOSC2
      rs re mx bl L).ev.core.isSequenced = true ∧
    (renderEpilogue ext props childRender restart buffer0 hasOSC2
      rs re mx bl L).ev.core.locked = false := by
  simp only [renderEpilogue]
  repeat' split
  all_goals
    first
      | exact ⟨hinv, hseq, hlock⟩
      | exact ⟨(hres _ _ hseq hlock hinv).1, (hres _ _ hseq hlock hinv).2.1,
          (hres _ _ hseq hlock hinv).2.2⟩

/-- `renderBody` preserves the geometry invariant, sequencing and
unlockedness, provided the `restart` continuation does. -/
theorem renderBody_geom (ext : Ext) (props : Props)
    (childRender : Event → AudioBuffer → ℕ → RenderOut)
    (restart : Event → ℕ → Event × ℕ)
    (hres : ∀ E2 r, E2.core.isSequenced = true → E2.core.locked = false →
      geomInv E2.core →
      geomInv (restart E2 r).1.core ∧ (restart E2 r).1.core.isSequenced = true ∧
        (restart E2 r).1.core.locked = false)
    (E : Event) (buf : AudioBuffer) (rng : ℕ)
    (hseq : E.core.isSequenced = true) (hlock : E.core.locked = false)
    (hinv : geomInv E.core) :
    geomInv (renderBody ext props childRender restart E buf rng).ev.core ∧
    (renderBody ext props childRender restart E buf rng).ev.core.isSequenced = true ∧
    (renderBody ext props childRender restart E buf rng).ev.core.locked = false := by
  simp only [renderBody]
  refine renderEpilogue_geom ext props childRender restart hres _ _ _ _ _ _ _ ?_ ?_ ?_
  · rw [(renderLoop_core_frame ext props _ _ _ _ _ _).2.2.2.1]
    exact hseq
  · rw [(renderLoop_core_frame ext props _ _ _ _ _ _).2.2.2.2.1]
    exact hlock
  · unfold geomInv
    rw [(renderLoop_core_frame ext props _ _ _ _ _ _).1,
      (renderLoop_core_frame ext props _ _ _ _ _ _).2.1,
      (renderLoop_core_frame ext props _ _ _ _ _ _).2.2.1]
    exact hinv

/-- The sequenced tail of `calculateBuffers` (Karplus-Strong re-init, cache
reset, auto-cache) preserves the geometry invariant, sequencing and
unlockedness of the freshly computed state, provided the `render`
continuation does. -/
theorem calcTail_geom (ext : Ext) (props : Props)
    (render : Event → AudioBuffer → ℕ → RenderOut)
    (hrender : ∀ E2 b r, E2.core.isSequenced = true → E2.core.locked = false →
      geomInv E2.core →
      geomInv (render E2 b r).ev.core ∧ (render E2 b r).ev.core.isSequenced = true ∧
        (render E2 b r).ev.core.locked = false)
    (st2 : OscState) (E2 : Event) (rng : ℕ)
    (hseq : st2.isSequenced = true) (hlock : st2.locked = false)
    (hinv : geomInv st2) :
    geomInv (calcTail ext props render st2 E2 rng).1.core ∧
    (calcTail ext props render st2 E2 rng).1.core.isSequenced = true ∧
    (calcTail ext props render st2 E2 rng).1.core.locked = false := by
  have hks : ∀ rngx, geomInv (initKarplusStrong ext props st2 rngx).1 ∧
      (initKarplusStrong ext props st2 rngx).1.isSequenced = true ∧
      (initKarplusStrong ext props st2 rngx).1.locked = false := by
    intro rngx
    obtain ⟨rg, rbs, h⟩ := initKarplusStrong_shape ext props st2 rngx
    rw [h]
    exact ⟨hinv, hseq, hlock⟩
  simp only [calcTail]
  rw [if_pos hseq]
  split
  all_goals split
  all_goals
    first
      | exact ⟨hinv, hseq, hlock⟩
      | exact ⟨(hks _).1, (hks _).2.1, (hks _).2.2⟩
      | skip
  all_goals split
  all_goals
    first
      | exact ⟨hinv, hseq, hlock⟩
      | exact ⟨(hks _).1, (hks _).2.1, (hks _).2.2⟩
      | skip
  all_goals split
  all_goals
    first
      | exact ⟨hinv, hseq, hlock⟩
      | exact ⟨(hks _).1, (hks _).2.1, (hks _).2.2⟩
      | exact ⟨(hrender _ _ _ hseq hlock hinv).1, (hrender _ _ _ hseq hlock hinv).2.1,
          (hrender _ _ _ hseq hlock hinv).2.2⟩
      | exact ⟨(hrender _ _ _ (hks _).2.1 (hks _).2.2 (hks _).1).1,
          (hrender _ _ _ (hks _).2.1 (hks _).2.2 (hks _).1).2.1,
          (hrender _ _ _ (hks _).2.1 (hks _).2.2 (hks _).1).2.2⟩
      | skip
  all_goals split
  all_goals
    first
      | exact ⟨hinv, hseq, hlock⟩
      | exact ⟨(hks _).1, (hks _).2.1, (hks _).2.2⟩
      | exact ⟨(hrender _ _ _ hseq hlock hinv).1, (hrender _ _ _ hseq hlock hinv).2.1,
          (hrender _ _ _ hseq hlock hinv).2.2⟩
      | exact ⟨(hrender _ _ _ (hks _).2.1 (hks _).2.2 (hks _).1).1,
          (hrender _ _ _ (hks _).2.1 (hks _).2.2 (hks _).1).2.1,
          (hrender _ _ _ (hks _).2.1 (hks _).2.2 (hks _).1).2.2⟩

/-- `calcBody` establishes the geometry invariant for an unlocked sequenced
event, provided the `render` continuation preserves it. -/
theorem calcBody_geom (ext : Ext) (props : Props)
    (render : Event → AudioBuffer → ℕ → RenderOut)
    (hrender : ∀ E2 b r, E2.core.isSequenced = true → E2.core.locked = false →
      geomInv E2.core →
      geomInv (render E2 b r).ev.core ∧ (render E2 b r).ev.core.isSequenced = true ∧
        (render E2 b r).ev.core.locked = false)
    (E : Event) (rng : ℕ)
    (hseq : E.core.isSequenced = true) (hlock : E.core.locked = false) :
    geomInv (calcBody ext props render E rng).1.core ∧
    (calcBody ext props render E rng).1.core.isSequenced = true ∧
    (calcBody ext props render E rng).1.core.locked = false := by
  simp only [calcBody]
  rw [if_neg (by rw [hlock]; simp)]
  rw [if_pos hseq]
  by_cases hca : E.core.caching = true
  all_goals first | rw [if_pos hca] | rw [if_neg hca]
  all_goals
    apply calcTail_geom ext props render hrender
  all_goals
    first
      | exact hseq
      | exact hlock
      | (simp only [geomInv]; try dsimp only
         ring)

/-- The simultaneous induction behind C4: for sequenced unlocked events,
`render` preserves and `calculateBuffers` establishes the geometry
invariant, at every fuel. -/
theorem geom_mutual (ext : Ext) (props : Props) : ∀ fuel : ℕ,
    (∀ (E : Event) (buf : AudioBuffer) (rng : ℕ),
      E.core.isSequenced = true → E.core.locked = false → geomInv E.core →
      geomInv (renderEvent ext props fuel E buf rng).ev.core ∧
      (renderEvent ext props fuel E buf rng).ev.core.isSequenced = true ∧
      (renderEvent ext props fuel E buf rng).ev.core.locked = false) ∧
    (∀ (E : Event) (rng : ℕ),
      E.core.isSequenced = true → E.core.locked = false →
      geomInv (calculateBuffersF ext props fuel E rng).1.core ∧
      (calculateBuffersF ext props fuel E rng).1.core.isSequenced = true ∧
      (calculateBuffersF ext props fuel E rng).1.core.locked = false) := by
  intro fuel
  induction fuel with
  | zero =>
    constructor
    · intro E buf rng hseq hlock hinv
      exact renderBody_geom ext props _ _
        (fun E2 r h1 h2 h3 => ⟨h3, h1, h2⟩) E buf rng hseq hlock hinv
    · intro E rng hseq hlock
      exact calcBody_geom ext props _
        (fun E2 b r h1 h2 h3 => ⟨h3, h1, h2⟩) E rng hseq hlock
  | succ n ih =>
    constructor
    · intro E buf rng hseq hlock hinv
      exact renderBody_geom ext props _ _
        (fun E2 r h1 h2 h3 => ih.2 E2 r h1 h2) E buf rng hseq hlock hinv
    · intro E rng hseq hlock
      exact calcBody_geom ext props _
        (fun E2 b r h1 h2 h3 => ih.1 E2 b r h1 h2 h3) E rng hseq hlock

/-- C4: for a sequenced event, `sampleEnd - sampleStart = sampleLength`
holds after every call to `calculateBuffers` on an unlocked event — whatever
the position/length values and however deep the cancel-restart recursion
goes; and a locked call leaves all three geometry fields untouched (the
recompute is deferred to `unlock()`), so the equation is preserved there
too. -/
theorem C4_calculateBuffers_geometry (fuel : ℕ) (ext : Ext) (props : Props)
    (E : Event) (rng : ℕ) (hseq : E.core.isSequenced = true) :
    (E.core.locked = false →
      (calculateBuffersF ext props fuel E rng).1.core.sampleEnd -
        (calculateBuffersF ext props fuel E rng).1.core.sampleStart =
        (calculateBuffersF ext props fuel E rng).1.core.sampleLength) ∧
    (E.core.locked = true →
      (calculateBuffersF ext props fuel E rng).1.core.sampleStart = E.core.sampleStart ∧
      (calculateBuffersF ext props fuel E rng).1.core.sampleEnd = E.core.sampleEnd ∧
      (calculateBuffersF ext props fuel E rng).1.core.sampleLength = E.core.sampleLength) := by
  constructor
  · intro hlock
    exact ((geom_mutual ext props fuel).2 E rng hseq hlock).1
  · intro hlock
    cases fuel <;>
    · simp only [calculateBuffersF, calcBody]
      rw [if_pos hlock]
      exact ⟨rfl, rfl, rfl⟩

/-- Witness for `C4_calculateBuffers_geometry`: a concrete sequenced unlocked
event satisfies the geometry equation after `calculateBuffers`. -/
theorem C4_calculateBuffers_geometry_witness :
    (calculateBuffersF extSample propsSample 1
        { core := { oscSample with isSequenced := true }, osc2 := none,
          buffer := none } 0).1.core.sampleEnd -
      (calculateBuffersF extSample propsSample 1
        { core := { oscSample with isSequenced := true }, osc2 := none,
          buffer := none } 0).1.core.sampleStart =
      (calculateBuffersF extSample propsSample 1
        { core := { oscSample with isSequenced := true }, osc2 := none,
          buffer := none } 0).1.core.sampleLength :=
  (C4_calculateBuffers_geometry 1 extSample propsSample
    { core := { oscSample with isSequenced := true }, osc2 := none, buffer := none }
    0 rfl).1 rfl

/- ### Buffer sample lemmas -/

theorem writeAll_channels_getD (b : AudioBuffer) (i : ℤ) (v : ℚ) (c : ℕ) (h0 : 0 ≤ i) :
    (writeAll b i v).channels.getD c [] =
      if c < b.channels.length then
        (if c < b.amountOfChannels then (b.channels.getD c []).set i.toNat v
         else b.channels.getD c [])
      else [] := by
  unfold writeAll
  rw [if_pos h0]
  simp only [List.getD_eq_getElem?_getD, List.getElem?_map, List.enum, List.getElem?_enumFrom]
  by_cases hcl : c < b.channels.length
  · rw [if_pos hcl, List.getElem?_eq_getElem hcl]
    simp [List.getD_eq_getElem?_getD, List.getElem?_eq_getElem hcl]
  · rw [if_neg hcl, List.getElem?_eq_none (by omega)]
    rfl

theorem writeAll_sample_ne (b : AudioBuffer) (i : ℤ) (v : ℚ) (c j : ℕ)
    (hji : (j:ℤ) ≠ i) : (writeAll b i v).sample c j = b.sample c j := by
  by_cases h0 : 0 ≤ i
  · unfold AudioBuffer.sample
    rw [writeAll_channels_getD b i v c h0]
    by_cases hcl : c < b.channels.length
    · rw [if_pos hcl]
      by_cases hca : c < b.amountOfChannels
      · rw [if_pos hca]
        have hne : i.toNat ≠ j := by omega
        simp [List.getD_eq_getElem?_getD, List.getElem?_set_ne hne]
      · rw [if_neg hca]
    · rw [if_neg hcl]
      have hnil : b.channels.getD c [] = [] := by
        simp [List.getD_eq_getElem?_getD, List.getElem?_eq_none (by omega : b.channels.length ≤ c)]
      rw [hnil]
  · unfold writeAll
    rw [if_neg h0]

theorem writeAll_sample_eq (b : AudioBuffer) (i : ℤ) (v : ℚ) (c : ℕ)
    (h0 : 0 ≤ i) (hca : c < b.amountOfChannels) (hcl : c < b.channels.length)
    (hil : i.toNat < (b.channels.getD c []).length) :
    (writeAll b i v).sample c (i.toNat) = v := by
  unfold AudioBuffer.sample
  rw [writeAll_channels_getD b i v c h0, if_pos hcl, if_pos hca]
  rw [List.getD_eq_getElem?_getD, List.getElem?_set_self (by simpa using hil)]
  rfl

theorem writeAll_meta (b : AudioBuffer) (i : ℤ) (v : ℚ) :
    (writeAll b i v).amountOfChannels = b.amountOfChannels ∧
    (writeAll b i v).bufferSize = b.bufferSize ∧
    (writeAll b i v).loopeable = b.loopeable ∧
    (writeAll b i v).channels.length = b.channels.length := by
  unfold writeAll
  split
  · exact ⟨rfl, rfl, rfl, by simp⟩
  · exact ⟨rfl, rfl, rfl, rfl⟩

theorem silence_channels_getD (b : AudioBuffer) (c : ℕ) :
    b.silenceBuffers.channels.getD c [] =
      if c < b.channels.length then
        (if c < b.amountOfChannels then List.replicate b.bufferSize (0:ℚ)
         else b.channels.getD c [])
      else [] := by
  unfold AudioBuffer.silenceBuffers
  simp only [List.getD_eq_getElem?_getD, List.getElem?_map, List.enum, List.getElem?_enumFrom]
  by_cases hcl : c < b.channels.length
  · rw [if_pos hcl, List.getElem?_eq_getElem hcl]
    simp [List.getD_eq_getElem?_getD, List.getElem?_eq_getElem hcl]
  · rw [if_neg hcl, List.getElem?_eq_none (by omega)]
    rfl

theorem silence_sample (b : AudioBuffer) (c j : ℕ) (hca : c < b.amountOfChannels)
    (hcl : c < b.channels.length) : b.silenceBuffers.sample c j = 0 := by
  unfold AudioBuffer.sample
  rw [silence_channels_getD b c, if_pos hcl, if_pos hca]
  by_cases hj : j < b.bufferSize
  · simp [List.getD_eq_getElem?_getD, List.getElem?_eq_getElem, hj]
  · rw [List.getD_eq_getElem?_getD, List.getElem?_eq_none (by simp; omega)]
    rfl

theorem silence_meta (b : AudioBuffer) :
    b.silenceBuffers.amountOfChannels = b.amountOfChannels ∧
    b.silenceBuffers.bufferSize = b.bufferSize ∧
    b.silenceBuffers.channels.length = b.channels.length := by
  unfold AudioBuffer.silenceBuffers
  exact ⟨rfl, rfl, by simp⟩

/- ### Window coverage of the render loop -/

/-- The window the claims speak about: `renderStartOffset` as computed by
`render` (`_cacheWriteIndex` in caching mode for a sequenced event, else 0). -/
def rsOf (props : Props) (E : Event) : ℤ :=
  if props.EVENT_CACHING = true ∧ E.core.isSequenced = true then E.core.cacheWriteIndex else 0

/-- The render window's end as the code computes it:
`renderStartOffset + bufferLength` clipped to `sampleLength - 1`. -/
def reOf (props : Props) (E : Event) (buf : AudioBuffer) : ℤ :=
  min (rsOf props E + (buf.bufferSize : ℤ)) (E.core.sampleLength - 1)

theorem rangeMap_succ (a : ℤ) (n : ℕ) :
    (List.range (n + 1)).map (fun k : ℕ => a + (k : ℤ)) =
      a :: (List.range n).map (fun k : ℕ => (a + 1) + (k : ℤ)) := by
  rw [List.range_succ_eq_map, List.map_cons, List.map_map]
  have hf : ((fun k : ℕ => a + (k : ℤ)) ∘ Nat.succ) = (fun k : ℕ => (a + 1) + (k : ℤ)) := by
    funext k
    simp [Function.comp]
    push_cast
    ring
  rw [hf]
  simp

/-- With no cancel pending, the sample loop runs to completion: it writes
exactly the indices `i, i+1, ..., i+rem-1` and ends with the loop variable at
`i + rem`. -/
theorem renderLoop_nocancel (ext : Ext) (props : Props) :
    ∀ rem st o2 buf rng i, st.cancel = false →
      (renderLoop ext props st o2 buf rng i rem).written =
        (List.range rem).map (fun k : ℕ => i + (k : ℤ)) ∧
      (renderLoop ext props st o2 buf rng i rem).finalI = i + rem := by
  intro rem
  induction rem with
  | zero =>
    intro st o2 buf rng i hc
    simp [renderLoop]
  | succ n ih =>
    intro st o2 buf rng i hc
    simp only [renderLoop]
    obtain ⟨ph1, pw1, rg1, hw⟩ := waveSample_shape ext props st i rng
    have hst1 : ∃ ph pw rg,
        (if st.type ≠ WaveForm.PWM then phaseAdvance (waveSample ext props st i rng).2.1
         else (waveSample ext props st i rng).2.1) =
          { st with phase := ph, pwmValue := pw, ring := rg } := by
      split
      · rw [hw]; exact ⟨_, _, _, rfl⟩
      · rw [hw]; exact ⟨_, _, _, rfl⟩
    obtain ⟨ph2, pw2, rg2, hst1⟩ := hst1
    rw [hst1]
    obtain ⟨fr3, pi3, bf3, rg3, rbs3, ac3, ha⟩ := arpTick_shape ext props
      { st with phase := ph2, pwmValue := pw2, ring := rg2 } o2
      (waveSample ext props st i rng).2.2
    rw [ha]
    rw [if_neg (by simp [hc])]
    have hcC : ({ st with
        phase := ph2
        pwmValue := pw2
        frequency := fr3
        phaseIncr := pi3
        baseFrequency := bf3
        ring := rg3
        ringBufferSize := rbs3
        arpCounter := ac3 } : OscState).cancel = false := hc
    constructor
    · rw [(ih _ _ _ _ _ hcC).1, rangeMap_succ]
    · rw [(ih _ _ _ _ _ hcC).2]
      push_cast
      ring

/-- Buffer frame property of the sample loop: positions never written keep
their previous value. -/
theorem renderLoop_buf_frame (ext : Ext) (props : Props) :
    ∀ rem st o2 buf rng i (c j : ℕ),
      ((j:ℤ) ∉ (renderLoop ext props st o2 buf rng i rem).written) →
      (renderLoop ext props st o2 buf rng i rem).buf.sample c j = buf.sample c j := by
  intro rem
  induction rem with
  | zero =>
    intro st o2 buf rng i c j _
    rfl
  | succ n ih =>
    intro st o2 buf rng i c j h
    simp only [renderLoop] at h ⊢
    split at h <;> rename_i h1
    · rw [if_pos h1]
      split at h <;> rename_i h2
      · rw [if_pos h2]
        dsimp only at h ⊢
        simp only [List.mem_singleton] at h
        exact writeAll_sample_ne buf i _ c j h
      · rw [if_neg h2]
        dsimp only at h ⊢
        simp only [List.mem_cons, not_or] at h
        rw [ih _ _ _ _ _ c j h.2]
        exact writeAll_sample_ne buf i _ c j h.1
    · rw [if_neg h1]
      split at h <;> rename_i h2
      · rw [if_pos h2]
        dsimp only at h ⊢
        simp only [List.mem_singleton] at h
        exact writeAll_sample_ne buf i _ c j h
      · rw [if_neg h2]
        dsimp only at h ⊢
        simp only [List.mem_cons, not_or] at h
        rw [ih _ _ _ _ _ c j h.2]
        exact writeAll_sample_ne buf i _ c j h.1

/-- The window actually rendered by `SynthEvent::render`'s body: with no
cancel pending the written indices are exactly
`[renderStartOffset, renderEndOffset)` with the end clipped at
`_sampleLength - 1`, and when the window was clipped every sample of the
output outside the written window is zero (the buffer was pre-silenced). -/
theorem renderBody_window (ext : Ext) (props : Props)
    (childRender : Event → AudioBuffer → ℕ → RenderOut)
    (restart : Event → ℕ → Event × ℕ)
    (E : Event) (buf : AudioBuffer) (rng : ℕ)
    (hcancel : E.core.cancel = false) :
    (renderBody ext props childRender restart E buf rng).written =
      intRange (rsOf props E) (reOf props E buf) ∧
    (E.core.sampleLength - 1 < rsOf props E + (buf.bufferSize : ℤ) → buf.wf →
      E.osc2 = none → ext.adsrApply = (fun _ _ b _ => b) →
      ∀ c j : ℕ, c < buf.amountOfChannels →
        ((j:ℤ) ∉ intRange (rsOf props E) (reOf props E buf)) →
        (renderBody ext props childRender restart E buf rng).buf.sample c j = 0) := by
  have hrs : (if props.EVENT_CACHING = true ∧ E.core.isSequenced = true
      then E.core.cacheWriteIndex else 0) = rsOf props E := rfl
  have hre : (if rsOf props E + (buf.bufferSize : ℤ) > E.core.sampleLength - 1
      then E.core.sampleLength - 1 else rsOf props E + (buf.bufferSize : ℤ)) =
      reOf props E buf := by
    unfold reOf
    split <;> omega
  constructor
  · simp only [renderBody, renderEpilogue]
    rw [hrs, hre]
    rw [(renderLoop_nocancel ext props _ _ _ _ _ _ hcancel).1]
    rfl
  · intro hclip hwf ho2 hadsr c j hc hnotin
    have hmem : (j:ℤ) ∉ (renderLoop ext props E.core none buf.silenceBuffers rng
        (rsOf props E) ((reOf props E buf - rsOf props E).toNat)).written := by
      rw [(renderLoop_nocancel ext props _ _ _ _ _ _ hcancel).1]
      exact hnotin
    simp only [renderBody, renderEpilogue, ho2, Option.isSome_none]
    rw [hadsr]
    rw [ite_self]
    beta_reduce
    rw [hrs, hre]
    rw [if_pos hclip]
    rw [if_neg (by simp)]
    dsimp only
    rw [renderLoop_buf_frame ext props _ _ _ _ _ _ c j hmem]
    exact silence_sample buf c j hc (by rw [hwf.1]; exact hc)

/-- The event used to exercise the render-window clipping: a live sawtooth
whose sample length equals the callback buffer length. -/
def evClip : Event :=
  { core := { oscSample with sampleLength := 4 }, osc2 := none, buffer := none }

/-- C2 counterexample: the spec claims `render` fills
`[renderStartOffset, min(renderStartOffset + bufferLength, _sampleLength))`.
With `_sampleLength = 4` and a 4-frame buffer the claimed window contains
index 3, yet the code clips the end at `_sampleLength - 1 = 3` and never
writes index 3. -/
theorem C2_render_window_cex :
    (0:ℤ) ≤ 3 ∧ (3:ℤ) < min ((0:ℤ) + (4:ℤ)) (4:ℤ) ∧
    (3:ℤ) ∉ (renderEvent extSample propsSample 1 evClip (newAudioBuffer 1 4) 0).written := by
  refine ⟨by decide, by decide, ?_⟩
  have h : (renderEvent extSample propsSample 1 evClip (newAudioBuffer 1 4) 0).written =
      intRange (rsOf propsSample evClip) (reOf propsSample evClip (newAudioBuffer 1 4)) :=
    (renderBody_window extSample propsSample
      (fun E2 b r => renderEvent extSample propsSample 0 E2 b r)
      (fun E2 r => calculateBuffersF extSample propsSample 0 E2 r)
      evClip (newAudioBuffer 1 4) 0 rfl).1
  rw [h]
  decide

/-- C2 (amended): for any fuel, when no cancel is pending `render` writes
exactly the indices `[renderStartOffset, renderEndOffset)` where
`renderStartOffset` is `_cacheWriteIndex` (caching mode, sequenced) or 0 and
`renderEndOffset = min(renderStartOffset + bufferLength, _sampleLength - 1)`
— clipped to `_sampleLength - 1`, not to the remaining sample length
`_sampleLength`; and when the window was clipped, the buffer was pre-silenced
so every sample outside the written window is zero (for an event with no
OSC2, under an envelope that leaves the buffer unchanged). -/
theorem C2_render_window_amended (ext : Ext) (props : Props) (fuel : ℕ)
    (E : Event) (buf : AudioBuffer) (rng : ℕ)
    (hcancel : E.core.cancel = false) :
    (renderEvent ext props fuel E buf rng).written =
      intRange (rsOf props E) (reOf props E buf) ∧
    (E.core.sampleLength - 1 < rsOf props E + (buf.bufferSize : ℤ) → buf.wf →
      E.osc2 = none → ext.adsrApply = (fun _ _ b _ => b) →
      ∀ c j : ℕ, c < buf.amountOfChannels →
        ((j:ℤ) ∉ intRange (rsOf props E) (reOf props E buf)) →
        (renderEvent ext props fuel E buf rng).buf.sample c j = 0) := by
  cases fuel <;> exact renderBody_window ext props _ _ E buf rng hcancel

/-- C2 witness: at fuel 1 for the clipped sawtooth event, the amended window
and zero-fill hold concretely. -/
theorem C2_render_window_amended_witness :
    (renderEvent extSample propsSample 1 evClip (newAudioBuffer 1 4) 0).written =
      intRange 0 3 ∧
    (renderEvent extSample propsSample 1 evClip (newAudioBuffer 1 4) 0).buf.sample 0 3 = 0 := by
  have h := C2_render_window_amended extSample propsSample 1 evClip (newAudioBuffer 1 4) 0 rfl
  constructor
  · rw [h.1]
    decide
  · exact h.2 (by decide) (by decide) rfl rfl 0 3 (by decide) (by decide)

/- ### Fade-out lemmas -/

theorem scaleAll_channels_getD (b : AudioBuffer) (i : ℤ) (g : ℚ) (c : ℕ) (h0 : 0 ≤ i) :
    (scaleAll b i g).channels.getD c [] =
      if c < b.channels.length then
        (if c < b.amountOfChannels then
          (b.channels.getD c []).set i.toNat ((b.channels.getD c []).getD i.toNat 0 * g)
         else b.channels.getD c [])
      else [] := by
  unfold scaleAll
  rw [if_pos h0]
  simp only [List.getD_eq_getElem?_getD, List.getElem?_map, List.enum, List.getElem?_enumFrom]
  by_cases hcl : c < b.channels.length
  · rw [if_pos hcl, List.getElem?_eq_getElem hcl]
    simp [List.getD_eq_getElem?_getD, List.getElem?_eq_getElem hcl]
  · rw [if_neg hcl, List.getElem?_eq_none (by omega)]
    rfl

theorem scaleAll_sample_ne (b : AudioBuffer) (i : ℤ) (g : ℚ) (c j : ℕ)
    (hji : (j:ℤ) ≠ i) : (scaleAll b i g).sample c j = b.sample c j := by
  by_cases h0 : 0 ≤ i
  · unfold AudioBuffer.sample
    rw [scaleAll_channels_getD b i g c h0]
    by_cases hcl : c < b.channels.length
    · rw [if_pos hcl]
      by_cases hca : c < b.amountOfChannels
      · rw [if_pos hca]
        have hne : i.toNat ≠ j := by omega
        simp [List.getD_eq_getElem?_getD, List.getElem?_set_ne hne]
      · rw [if_neg hca]
    · rw [if_neg hcl]
      have hnil : b.channels.getD c [] = [] := by
        simp [List.getD_eq_getElem?_getD, List.getElem?_eq_none (by omega : b.channels.length ≤ c)]
      rw [hnil]
  · unfold scaleAll
    rw [if_neg h0]

theorem scaleAll_sample_eq (b : AudioBuffer) (i : ℤ) (g : ℚ) (c : ℕ)
    (h0 : 0 ≤ i) (hca : c < b.amountOfChannels) (hcl : c < b.channels.length)
    (hil : i.toNat < (b.channels.getD c []).length) :
    (scaleAll b i g).sample c (i.toNat) = b.sample c (i.toNat) * g := by
  unfold AudioBuffer.sample
  rw [scaleAll_channels_getD b i g c h0, if_pos hcl, if_pos hca]
  rw [List.getD_eq_getElem?_getD, List.getElem?_set_self (by simpa using hil)]
  rfl

theorem scaleAll_meta (b : AudioBuffer) (i : ℤ) (g : ℚ) :
    (scaleAll b i g).amountOfChannels = b.amountOfChannels ∧
    (scaleAll b i g).bufferSize = b.bufferSize ∧
    (scaleAll b i g).channels.length = b.channels.length := by
  unfold scaleAll
  split
  · exact ⟨rfl, rfl, by simp⟩
  · exact ⟨rfl, rfl, rfl⟩

theorem scaleAll_chanlen (b : AudioBuffer) (i : ℤ) (g : ℚ) (c : ℕ) :
    ((scaleAll b i g).channels.getD c []).length = (b.channels.getD c []).length := by
  by_cases h0 : 0 ≤ i
  · rw [scaleAll_channels_getD b i g c h0]
    by_cases hcl : c < b.channels.length
    · rw [if_pos hcl]
      by_cases hca : c < b.amountOfChannels
      · rw [if_pos hca, List.length_set]
      · rw [if_neg hca]
    · rw [if_neg hcl]
      have hnil : b.channels.getD c [] = [] := by
        simp [List.getD_eq_getElem?_getD, List.getElem?_eq_none (by omega : b.channels.length ≤ c)]
      rw [hnil]
  · unfold scaleAll
    rw [if_neg h0]

theorem fadeLoop_frame (envIncr : ℚ) :
    ∀ (n : ℕ) (i : ℤ) (amp : ℚ) (b : AudioBuffer) (c j : ℕ),
      ((j:ℤ) < i ∨ i + (n:ℤ) ≤ (j:ℤ)) →
      (fadeLoop envIncr n i amp b).sample c j = b.sample c j := by
  intro n
  induction n with
  | zero =>
    intro i amp b c j _
    rfl
  | succ m ih =>
    intro i amp b c j h
    show (fadeLoop envIncr m (i + 1) (amp - envIncr) (scaleAll b i amp)).sample c j = _
    rw [ih (i + 1) (amp - envIncr) (scaleAll b i amp) c j (by push_cast at h ⊢; omega)]
    exact scaleAll_sample_ne b i amp c j (by push_cast at h; omega)

/-- The fade loop multiplies sample `j` by the linearly decaying gain
`amp - (j - start) * envIncr`. -/
theorem fadeLoop_sample (envIncr : ℚ) :
    ∀ (n : ℕ) (i : ℤ) (amp : ℚ) (b : AudioBuffer) (c j : ℕ),
      c < b.amountOfChannels → c < b.channels.length →
      j < (b.channels.getD c []).length →
      i ≤ (j:ℤ) → (j:ℤ) < i + (n:ℤ) →
      (fadeLoop envIncr n i amp b).sample c j =
        b.sample c j * (amp - (((j:ℤ) - i : ℤ) : ℚ) * envIncr) := by
  intro n
  induction n with
  | zero =>
    intro i amp b c j _ _ _ h1 h2
    omega
  | succ m ih =>
    intro i amp b c j hca hcl hjl h1 h2
    show (fadeLoop envIncr m (i + 1) (amp - envIncr) (scaleAll b i amp)).sample c j = _
    by_cases hj : (j:ℤ) = i
    · rw [fadeLoop_frame envIncr m (i + 1) (amp - envIncr) (scaleAll b i amp) c j
        (Or.inl (by omega))]
      have hji : i.toNat = j := by omega
      rw [← hji]
      rw [scaleAll_sample_eq b i amp c (by omega) hca hcl (by rw [hji]; exact hjl)]
      have hz : ((i.toNat : ℤ) - i : ℤ) = 0 := by omega
      rw [hz]
      push_cast
      ring
    · rw [ih (i + 1) (amp - envIncr) (scaleAll b i amp) c j
        (by rw [(scaleAll_meta b i amp).1]; exact hca)
        (by rw [(scaleAll_meta b i amp).2.2]; exact hcl)
        (by rw [scaleAll_chanlen b i amp c]; exact hjl)
        (by omega) (by push_cast at h2 ⊢; omega)]
      rw [scaleAll_sample_ne b i amp c j hj]
      have harith : (((j:ℤ) - (i + 1) : ℤ) : ℚ) = (((j:ℤ) - i : ℤ) : ℚ) - 1 := by
        push_cast
        ring
      rw [harith]
      ring

/- ### Flag preservation through render (unsequenced events) -/

/-- For an unsequenced loop result the caching epilogue of `render` is
skipped, so deletion bookkeeping survives: the returned event keeps the
queued-for-deletion flag and the minimum ring-out length. -/
theorem renderEpilogue_keep (ext : Ext) (props : Props)
    (childRender : Event → AudioBuffer → ℕ → RenderOut)
    (restart : Event → ℕ → Event × ℕ)
    (buffer0 : Option AudioBuffer) (hasOSC2 : Bool)
    (rs re mx bl : ℤ) (L : LoopOut)
    (hseq : L.st.isSequenced = false) :
    (renderEpilogue ext props childRender restart buffer0 hasOSC2
      rs re mx bl L).ev.core.queuedForDeletion = L.st.queuedForDeletion ∧
    (renderEpilogue ext props childRender restart buffer0 hasOSC2
      rs re mx bl L).ev.core.minLength = L.st.minLength := by
  simp only [renderEpilogue]
  have hnot : ¬(props.EVENT_CACHING = true ∧
      (if L.st.hasParent = false
        then { L.st with cacheWriteIndex := L.st.cacheWriteIndex + L.finalI }
        else L.st).isSequenced = true) := by
    intro h
    have h2 := h.2
    revert h2
    split
    · intro h2
      simp [hseq] at h2
    · intro h2
      simp [hseq] at h2
  rw [if_neg hnot]
  constructor
  · show (if L.st.hasParent = false
        then { L.st with cacheWriteIndex := L.st.cacheWriteIndex + L.finalI }
        else L.st).queuedForDeletion = L.st.queuedForDeletion
    split <;> rfl
  · show (if L.st.hasParent = false
        then { L.st with cacheWriteIndex := L.st.cacheWriteIndex + L.finalI }
        else L.st).minLength = L.st.minLength
    split <;> rfl

/-- `render`'s body on an unsequenced event preserves the queued-for-deletion
flag and the minimum ring-out length. -/
theorem renderBody_keep (ext : Ext) (props : Props)
    (childRender : Event → AudioBuffer → ℕ → RenderOut)
    (restart : Event → ℕ → Event × ℕ)
    (E : Event) (buf : AudioBuffer) (rng : ℕ)
    (hseq : E.core.isSequenced = false) :
    (renderBody ext props childRender restart E buf rng).ev.core.queuedForDeletion =
      E.core.queuedForDeletion ∧
    (renderBody ext props childRender restart E buf rng).ev.core.minLength =
      E.core.minLength := by
  simp only [renderBody]
  constructor
  · rw [(renderEpilogue_keep ext props _ _ _ _ _ _ _ _ _ ?hs).1,
      (renderLoop_core_frame ext props _ _ _ _ _ _).2.2.2.2.2.2.2.2.1]
    case hs =>
      rw [(renderLoop_core_frame ext props _ _ _ _ _ _).2.2.2.1]
      exact hseq
  · rw [(renderEpilogue_keep ext props _ _ _ _ _ _ _ _ _ ?hs2).2,
      (renderLoop_core_frame ext props _ _ _ _ _ _).2.2.2.2.2.2.2.2.2.1]
    case hs2 =>
      rw [(renderLoop_core_frame ext props _ _ _ _ _ _).2.2.2.1]
      exact hseq

/-- `SynthEvent::render` on an unsequenced event preserves the
queued-for-deletion flag and the minimum ring-out length, at every fuel. -/
theorem renderEvent_keep (ext : Ext) (props : Props) (fuel : ℕ)
    (E : Event) (buf : AudioBuffer) (rng : ℕ)
    (hseq : E.core.isSequenced = false) :
    (renderEvent ext props fuel E buf rng).ev.core.queuedForDeletion =
      E.core.queuedForDeletion ∧
    (renderEvent ext props fuel E buf rng).ev.core.minLength = E.core.minLength := by
  cases fuel <;> exact renderBody_keep ext props _ _ E buf rng hseq

/-- C9: `synthesize` on a live (unsequenced) event with deletion queued and
the minimum ring-out length exhausted applies a linear fade over exactly the
trailing quarter of the buffer (`amt = aBufferLength / 4`, integer division,
exact when 4 divides the length): samples before the fade window are
untouched, the first faded sample keeps its pre-fade amplitude (scale factor
1), and the last sample is scaled down to `1 / amt` of its pre-fade
amplitude — within rounding error of zero. -/
theorem C9_synthesize_fade (ext : Ext) (props : Props) (fuel : ℕ) (E : Event)
    (b : AudioBuffer) (rng : ℕ) (L : ℤ)
    (hseq : E.core.isSequenced = false)
    (hq : E.core.queuedForDeletion = true)
    (hmin : E.core.minLength ≤ 0)
    (hBS : L = props.BUFFER_SIZE)
    (hbuf : E.buffer = some b)
    (hL4 : 4 ∣ L) (hLpos : 0 < L) :
    (∀ c j : ℕ, (j:ℤ) < L - Int.tdiv L 4 →
      (synthesizeF fuel ext props E L rng).2.1.sample c j =
        (renderEvent ext props fuel E b rng).buf.sample c j) ∧
    (∀ c : ℕ, c < (renderEvent ext props fuel E b rng).buf.amountOfChannels →
      c < (renderEvent ext props fuel E b rng).buf.channels.length →
      (L - Int.tdiv L 4).toNat <
        ((renderEvent ext props fuel E b rng).buf.channels.getD c []).length →
      (synthesizeF fuel ext props E L rng).2.1.sample c ((L - Int.tdiv L 4).toNat) =
        (renderEvent ext props fuel E b rng).buf.sample c ((L - Int.tdiv L 4).toNat)) ∧
    (∀ c : ℕ, c < (renderEvent ext props fuel E b rng).buf.amountOfChannels →
      c < (renderEvent ext props fuel E b rng).buf.channels.length →
      (L - 1).toNat <
        ((renderEvent ext props fuel E b rng).buf.channels.getD c []).length →
      (synthesizeF fuel ext props E L rng).2.1.sample c ((L - 1).toNat) =
        (renderEvent ext props fuel E b rng).buf.sample c ((L - 1).toNat) *
          (1 / ((Int.tdiv L 4 : ℤ) : ℚ))) := by
  obtain ⟨m, hm⟩ := hL4
  have hamt : Int.tdiv L 4 = m := by
    rw [hm]
    exact Int.mul_tdiv_cancel_left m (by norm_num)
  have hkeep := renderEvent_keep ext props fuel E b rng hseq
  have hS : (synthesizeF fuel ext props E L rng).2.1 =
      applyFade (renderEvent ext props fuel E b rng).buf (L - Int.tdiv L 4) L 1
        (1 / ((Int.tdiv L 4 : ℤ) : ℚ)) := by
    simp only [synthesizeF]
    rw [if_neg (show ¬(L ≠ props.BUFFER_SIZE) from by simpa using hBS)]
    simp only [hbuf]
    rw [if_neg (show ¬((renderEvent ext props fuel E b rng).ev.core.queuedForDeletion = true ∧
        (renderEvent ext props fuel E b rng).ev.core.minLength > 0) from
      fun h => absurd h.2 (by rw [hkeep.2]; omega))]
    rw [if_pos (show (renderEvent ext props fuel E b rng).ev.core.minLength ≤ 0 from by
      rw [hkeep.2]; exact hmin)]
    simp only [setDeletableEvent, setDeletableOsc]
    rw [if_pos (Or.inr trivial)]
    rw [if_pos (show (renderEvent ext props fuel E b rng).ev.core.queuedForDeletion = true from
      hkeep.1.trans hq)]
  refine ⟨?_, ?_, ?_⟩
  · intro c j hj
    rw [hS]
    exact fadeLoop_frame _ _ _ _ _ c j (Or.inl hj)
  · intro c hca hcl hjl
    rw [hS]
    unfold applyFade
    rw [fadeLoop_sample _ _ _ _ _ c _ hca hcl hjl
      (by rw [hamt] at *; omega) (by rw [hamt] at *; push_cast; omega)]
    have hz : (((L - Int.tdiv L 4).toNat : ℤ) - (L - Int.tdiv L 4) : ℤ) = 0 := by
      rw [hamt] at *
      omega
    rw [hz]
    push_cast
    ring
  · intro c hca hcl hjl
    rw [hS]
    unfold applyFade
    rw [fadeLoop_sample _ _ _ _ _ c _ hca hcl hjl
      (by rw [hamt] at *; omega) (by rw [hamt] at *; push_cast; omega)]
    have hz : (((L - 1).toNat : ℤ) - (L - Int.tdiv L 4) : ℤ) = Int.tdiv L 4 - 1 := by
      rw [hamt] at *
      omega
    rw [hz]
    have hne : ((Int.tdiv L 4 : ℤ) : ℚ) ≠ 0 := by
      rw [hamt]
      exact_mod_cast (show (0:ℤ) < m by omega).ne'
    rw [show (1 : ℚ) - ((Int.tdiv L 4 - 1 : ℤ) : ℚ) * (1 / ((Int.tdiv L 4 : ℤ) : ℚ)) =
        1 / ((Int.tdiv L 4 : ℤ) : ℚ) from by field_simp]

/-- Engine configuration for the fade witness: an 8-frame callback buffer. -/
def propsFade : Props :=
  { EVENT_CACHING := false, BUFFER_SIZE := 8, OUTPUT_CHANNELS := 1, SAMPLE_RATE := 8,
    bytes_per_tick := 16, bytes_per_bar := 64 }

/-- A live sawtooth queued for deletion whose minimum ring-out length is
exhausted, owning an 8-frame mono buffer. -/
def evFade : Event :=
  { core := { oscSample with queuedForDeletion := true, minLength := 0 },
    osc2 := none, buffer := some (newAudioBuffer 1 8) }

/-- C9 witness: with an 8-frame buffer the fade covers the trailing 2
samples; index 3 is untouched, index 6 keeps its pre-fade value, index 7 is
scaled by 1/2. -/
theorem C9_synthesize_fade_witness :
    (synthesizeF 1 extSample propsFade evFade 8 0).2.1.sample 0 3 =
      (renderEvent extSample propsFade 1 evFade (newAudioBuffer 1 8) 0).buf.sample 0 3 ∧
    (synthesizeF 1 extSample propsFade evFade 8 0).2.1.sample 0 6 =
      (renderEvent extSample propsFade 1 evFade (newAudioBuffer 1 8) 0).buf.sample 0 6 ∧
    (synthesizeF 1 extSample propsFade evFade 8 0).2.1.sample 0 7 =
      (renderEvent extSample propsFade 1 evFade (newAudioBuffer 1 8) 0).buf.sample 0 7 *
        (1 / ((Int.tdiv 8 4 : ℤ) : ℚ)) := by
  have h := C9_synthesize_fade extSample propsFade 1 evFade (newAudioBuffer 1 8) 0 8
    rfl rfl (by decide) rfl rfl (by decide) (by decide)
  exact ⟨h.1 0 3 (by decide), h.2.1 0 (by decide) (by decide) (by decide),
    h.2.2 0 (by decide) (by decide) (by decide)⟩

/- ### OSC2 lockstep machinery -/

theorem arpTick_none (ext : Ext) (props : Props) (st : OscState) (o2 : Option OscState)
    (rng : ℕ) (h : st.arpCounter = none) :
    arpTick ext props st o2 rng = (st, o2, rng) := by
  simp only [arpTick, h]

/-- `waveSample` neither reads `hasParent` nor (off the noise path) the random
stream: the amplitude, the state change and the stream position agree for a
`hasParent` override and any two stream positions. -/
theorem waveSample_hp (ext : Ext) (props : Props) (sa : OscState) (hp : Bool) (i : ℤ)
    (rga rgb : ℕ) (hno : sa.type ≠ WaveForm.NOISE) :
    (waveSample ext props { sa with hasParent := hp } i rgb).1 =
      (waveSample ext props sa i rga).1 ∧
    (waveSample ext props { sa with hasParent := hp } i rgb).2.1 =
      { (waveSample ext props sa i rga).2.1 with hasParent := hp } ∧
    (waveSample ext props { sa with hasParent := hp } i rgb).2.2 = rgb ∧
    (waveSample ext props sa i rga).2.2 = rga := by
  cases htype : sa.type <;>
    first
      | exact absurd htype hno
      | (simp only [waveSample, htype]
         refine ⟨?_, ?_, ?_, ?_⟩ <;> first | rfl | trivial)
      | (simp only [waveSample, htype]
         cases hr : sa.ring <;> (try simp only [hr]) <;>
           (refine ⟨?_, ?_, ?_, ?_⟩ <;> first | rfl | trivial | rw [htype]))

theorem phaseAdvance_hp (sa : OscState) (hp : Bool) :
    phaseAdvance { sa with hasParent := hp } = { phaseAdvance sa with hasParent := hp } := rfl

theorem writeAll_chanlen (b : AudioBuffer) (i : ℤ) (v : ℚ) (c : ℕ) :
    ((writeAll b i v).channels.getD c []).length = (b.channels.getD c []).length := by
  by_cases h0 : 0 ≤ i
  · rw [writeAll_channels_getD b i v c h0]
    by_cases hcl : c < b.channels.length
    · rw [if_pos hcl]
      by_cases hca : c < b.amountOfChannels
      · rw [if_pos hca, List.length_set]
      · rw [if_neg hca]
    · rw [if_neg hcl]
      have hnil : b.channels.getD c [] = [] := by
        simp [List.getD_eq_getElem?_getD, List.getElem?_eq_none (by omega : b.channels.length ≤ c)]
      rw [hnil]
  · unfold writeAll
    rw [if_neg h0]

/-- The sample loop only rewrites samples: the buffer geometry (loopable
flag, channel count, frame count, channel list shape) is untouched. -/
theorem renderLoop_buf_meta (ext : Ext) (props : Props) :
    ∀ rem st o2 buf rng i,
      (renderLoop ext props st o2 buf rng i rem).buf.amountOfChannels = buf.amountOfChannels ∧
      (renderLoop ext props st o2 buf rng i rem).buf.bufferSize = buf.bufferSize ∧
      (renderLoop ext props st o2 buf rng i rem).buf.loopeable = buf.loopeable ∧
      (renderLoop ext props st o2 buf rng i rem).buf.channels.length = buf.channels.length ∧
      ∀ c : ℕ, ((renderLoop ext props st o2 buf rng i rem).buf.channels.getD c []).length =
        (buf.channels.getD c []).length := by
  intro rem
  induction rem with
  | zero =>
    intro st o2 buf rng i
    exact ⟨rfl, rfl, rfl, rfl, fun _ => rfl⟩
  | succ n ih =>
    intro st o2 buf rng i
    simp only [renderLoop]
    split
    · split
      · exact ⟨(writeAll_meta buf i _).1, (writeAll_meta buf i _).2.1,
          (writeAll_meta buf i _).2.2.1, (writeAll_meta buf i _).2.2.2,
          fun c => writeAll_chanlen buf i _ c⟩
      · refine ⟨(ih _ _ _ _ _).1.trans (writeAll_meta buf i _).1,
          (ih _ _ _ _ _).2.1.trans (writeAll_meta buf i _).2.1,
          (ih _ _ _ _ _).2.2.1.trans (writeAll_meta buf i _).2.2.1,
          (ih _ _ _ _ _).2.2.2.1.trans (writeAll_meta buf i _).2.2.2,
          fun c => ((ih _ _ _ _ _).2.2.2.2 c).trans (writeAll_chanlen buf i _ c)⟩
    · split
      · exact ⟨(writeAll_meta buf i _).1, (writeAll_meta buf i _).2.1,
          (writeAll_meta buf i _).2.2.1, (writeAll_meta buf i _).2.2.2,
          fun c => writeAll_chanlen buf i _ c⟩
      · refine ⟨(ih _ _ _ _ _).1.trans (writeAll_meta buf i _).1,
          (ih _ _ _ _ _).2.1.trans (writeAll_meta buf i _).2.1,
          (ih _ _ _ _ _).2.2.1.trans (writeAll_meta buf i _).2.2.1,
          (ih _ _ _ _ _).2.2.2.1.trans (writeAll_meta buf i _).2.2.2,
          fun c => ((ih _ _ _ _ _).2.2.2.2 c).trans (writeAll_chanlen buf i _ c)⟩

/-- With no arpeggiator the sample loop never touches the OSC2 state. -/
theorem renderLoop_o2 (ext : Ext) (props : Props) :
    ∀ rem st o2 buf rng i, st.arpCounter = none →
      (renderLoop ext props st o2 buf rng i rem).osc2 = o2 := by
  intro rem
  induction rem with
  | zero =>
    intro st o2 buf rng i _
    rfl
  | succ n ih =>
    intro st o2 buf rng i harp
    simp only [renderLoop]
    obtain ⟨ph1, pw1, rg1, hw⟩ := waveSample_shape ext props st i rng
    have hst1 : ∃ ph pw rg,
        (if st.type ≠ WaveForm.PWM then phaseAdvance (waveSample ext props st i rng).2.1
         else (waveSample ext props st i rng).2.1) =
          { st with phase := ph, pwmValue := pw, ring := rg } := by
      split
      · rw [hw]; exact ⟨_, _, _, rfl⟩
      · rw [hw]; exact ⟨_, _, _, rfl⟩
    obtain ⟨ph2, pw2, rg2, hst1⟩ := hst1
    rw [hst1]
    have harpC : ({ st with phase := ph2, pwmValue := pw2, ring := rg2 } : OscState).arpCounter =
        none := harp
    rw [arpTick_none ext props _ o2 _ harpC]
    split
    · rfl
    · exact ih _ _ _ _ _ harpC

/-- Every index written by the sample loop is at least the starting index. -/
theorem renderLoop_written_lb (ext : Ext) (props : Props) :
    ∀ rem st o2 buf rng i (x : ℤ), x < i →
      x ∉ (renderLoop ext props st o2 buf rng i rem).written := by
  intro rem
  induction rem with
  | zero =>
    intro st o2 buf rng i x _ hmem
    exact absurd hmem (List.not_mem_nil x)
  | succ n ih =>
    intro st o2 buf rng i x hx
    simp only [renderLoop]
    split
    · split
      · intro hmem
        simp only [List.mem_singleton] at hmem
        omega
      · intro hmem
        simp only [List.mem_cons] at hmem
        rcases hmem with h1 | h2
        · omega
        · exact ih _ _ _ _ _ x (by omega) h2
    · split
      · intro hmem
        simp only [List.mem_singleton] at hmem
        omega
      · intro hmem
        simp only [List.mem_cons] at hmem
        rcases hmem with h1 | h2
        · omega
        · exact ih _ _ _ _ _ x (by omega) h2

/-- Lockstep comparison of the sample loop with and without OSC2: starting
from the same oscillator state (up to the `hasParent` mark), off the noise
and arpeggiator paths, the run without OSC2 writes exactly twice the sample
the halved run with OSC2 writes, at every index of the shared window. -/
theorem renderLoop_lockstep (ext : Ext) (props : Props) :
    ∀ (rem : ℕ) (st : OscState) (hp : Bool) (o2c : OscState)
      (bufa bufb : AudioBuffer) (rga rgb : ℕ) (i : ℤ),
      st.arpCounter = none → st.type ≠ WaveForm.NOISE → st.cancel = false →
      bufa.amountOfChannels = bufb.amountOfChannels →
      ∀ c j : ℕ, c < bufa.amountOfChannels →
        c < bufa.channels.length → c < bufb.channels.length →
        j < (bufa.channels.getD c []).length → j < (bufb.channels.getD c []).length →
        i ≤ (j:ℤ) → (j:ℤ) < i + (rem:ℤ) →
        (renderLoop ext props { st with hasParent := hp } none bufb rgb i rem).buf.sample c j =
          2 * (renderLoop ext props st (some o2c) bufa rga i rem).buf.sample c j := by
  intro rem
  induction rem with
  | zero =>
    intro st hp o2c bufa bufb rga rgb i _ _ _ _ c j _ _ _ _ _ hij hjr
    omega
  | succ n ih =>
    intro st hp o2c bufa bufb rga rgb i harp hno hcancel hab c j hc hcla hclb hja hjb hij hjr
    simp only [renderLoop]
    have hhp := waveSample_hp ext props st hp i rga rgb hno
    obtain ⟨ph1, pw1, rg1, hwA⟩ := waveSample_shape ext props st i rga
    rw [hhp.1, hhp.2.1, hhp.2.2.1, hhp.2.2.2]
    simp only [show ({ st with hasParent := hp } : OscState).type = st.type from rfl]
    by_cases hpwm : st.type ≠ WaveForm.PWM
    · rw [if_pos hpwm, if_pos hpwm, phaseAdvance_hp, hwA]
      have harpA : (phaseAdvance { st with phase := ph1, pwmValue := pw1, ring := rg1 }).arpCounter =
          none := harp
      have harpB : ({ phaseAdvance { st with phase := ph1, pwmValue := pw1, ring := rg1 } with
          hasParent := hp } : OscState).arpCounter = none := harp
      rw [arpTick_none ext props _ (some o2c) _ harpA, arpTick_none ext props _ none _ harpB]
      dsimp only
      rw [if_pos (show (some o2c).isSome = true from rfl)]
      rw [if_neg (show ¬((none : Option OscState).isSome = true) from by simp)]
      rw [if_neg ?hcB1]
      case hcB1 => simp [phaseAdvance, hcancel]
      rw [if_neg ?hcA1]
      case hcA1 => simp [phaseAdvance, hcancel]
      try dsimp only
      by_cases hj : (j:ℤ) = i
      · rw [renderLoop_buf_frame ext props _ _ _ _ _ _ c j ?hmB]
        case hmB => exact renderLoop_written_lb ext props _ _ _ _ _ _ _ (by omega)
        rw [renderLoop_buf_frame ext props _ _ _ _ _ _ c j ?hmA]
        case hmA => exact renderLoop_written_lb ext props _ _ _ _ _ _ _ (by omega)
        have h0i : 0 ≤ i := by omega
        have hji : j = i.toNat := by omega
        subst hji
        rw [writeAll_sample_eq bufb i _ c h0i (hab ▸ hc) hclb hjb]
        rw [writeAll_sample_eq bufa i _ c h0i hc hcla hja]
        dsimp only [phaseAdvance]
        ring
      · rw [ih (phaseAdvance { st with phase := ph1, pwmValue := pw1, ring := rg1 }) hp o2c
          _ _ rga rgb (i + 1) harp hno hcancel ?hab2 c j ?hc2 ?hcla2 ?hclb2 ?hja2 ?hjb2
          (by omega) (by push_cast at hjr ⊢; omega)]
        case hab2 =>
          rw [(writeAll_meta _ _ _).1, (writeAll_meta _ _ _).1]
          exact hab
        case hc2 =>
          rw [(writeAll_meta _ _ _).1]
          exact hc
        case hcla2 =>
          rw [(writeAll_meta _ _ _).2.2.2]
          exact hcla
        case hclb2 =>
          rw [(writeAll_meta _ _ _).2.2.2]
          exact hclb
        case hja2 =>
          rw [writeAll_chanlen]
          exact hja
        case hjb2 =>
          rw [writeAll_chanlen]
          exact hjb
    · rw [if_neg hpwm, if_neg hpwm, hwA]
      have harpA : ({ st with phase := ph1, pwmValue := pw1, ring := rg1 } : OscState).arpCounter =
          none := harp
      have harpB : ({ { st with phase := ph1, pwmValue := pw1, ring := rg1 } with
          hasParent := hp } : OscState).arpCounter = none := harp
      rw [arpTick_none ext props _ (some o2c) _ harpA, arpTick_none ext props _ none _ harpB]
      dsimp only
      rw [if_pos (show (some o2c).isSome = true from rfl)]
      rw [if_neg (show ¬((none : Option OscState).isSome = true) from by simp)]
      rw [if_neg ?hcB2]
      case hcB2 => simp [hcancel]
      rw [if_neg ?hcA2]
      case hcA2 => simp [hcancel]
      try dsimp only
      by_cases hj : (j:ℤ) = i
      · rw [renderLoop_buf_frame ext props _ _ _ _ _ _ c j ?hmB3]
        case hmB3 => exact renderLoop_written_lb ext props _ _ _ _ _ _ _ (by omega)
        rw [renderLoop_buf_frame ext props _ _ _ _ _ _ c j ?hmA3]
        case hmA3 => exact renderLoop_written_lb ext props _ _ _ _ _ _ _ (by omega)
        have h0i : 0 ≤ i := by omega
        have hji : j = i.toNat := by omega
        subst hji
        rw [writeAll_sample_eq bufb i _ c h0i (hab ▸ hc) hclb hjb]
        rw [writeAll_sample_eq bufa i _ c h0i hc hcla hja]
        try dsimp only
        ring
      · rw [ih { st with phase := ph1, pwmValue := pw1, ring := rg1 } hp o2c
          _ _ rga rgb (i + 1) harp hno hcancel ?hab4 c j ?hc4 ?hcla4 ?hclb4 ?hja4 ?hjb4
          (by omega) (by push_cast at hjr ⊢; omega)]
        case hab4 =>
          rw [(writeAll_meta _ _ _).1, (writeAll_meta _ _ _).1]
          exact hab
        case hc4 =>
          rw [(writeAll_meta _ _ _).1]
          exact hc
        case hcla4 =>
          rw [(writeAll_meta _ _ _).2.2.2]
          exact hcla
        case hclb4 =>
          rw [(writeAll_meta _ _ _).2.2.2]
          exact hclb
        case hja4 =>
          rw [writeAll_chanlen]
          exact hja
        case hjb4 =>
          rw [writeAll_chanlen]
          exact hjb

/-- Merging a non-loopable source at read and write offset 0 adds the scaled
source sample to the target sample, at every in-range position of a common
channel. -/
theorem mergeBuffers_sample_add (tgt src : AudioBuffer) (g : ℚ) (c j : ℕ)
    (hlp : src.loopeable = false)
    (hwo : 0 < tgt.bufferSize)
    (hc : c < tgt.amountOfChannels) (hcs : c < src.amountOfChannels)
    (hcl : c < tgt.channels.length)
    (hjw : j < mergeWriteLength tgt src 0) (hjs : j < src.bufferSize)
    (hjt : j < (tgt.channels.getD c []).length)
    (hwl : mergeWriteLength tgt src 0 ≤ (tgt.channels.getD c []).length) :
    ((tgt.mergeBuffers (some src) 0 0 g).1).sample c j =
      tgt.sample c j + src.sample c j * g := by
  simp only [AudioBuffer.mergeBuffers]
  rw [if_neg (by omega)]
  unfold AudioBuffer.sample
  have hch := mergeChannels_getD src (min tgt.amountOfChannels src.amountOfChannels) 0 0
    (mergeWriteLength tgt src 0) g tgt.channels 0 c
  rw [show (0 : ℕ) + c = c from by omega] at hch
  rw [hch, if_pos (by omega : c < min tgt.amountOfChannels src.amountOfChannels), hlp]
  have hadd := mergeChanLoop_add (src.channels.getD c []) src.bufferSize g
    (mergeWriteLength tgt src 0) 0 0 (tgt.channels.getD c []) ?hb1 ?hb2 j hjw
  case hb1 =>
    unfold mergeWriteLength
    split <;> omega
  case hb2 => omega
  rw [show (0 : ℕ) + j = j from by omega] at hadd
  rw [hadd]

theorem newAudioBuffer_meta (nc bs : ℕ) :
    (newAudioBuffer nc bs).amountOfChannels = nc ∧
    (newAudioBuffer nc bs).bufferSize = bs ∧
    (newAudioBuffer nc bs).loopeable = false ∧
    (newAudioBuffer nc bs).channels.length = nc ∧
    ∀ c : ℕ, c < nc → ((newAudioBuffer nc bs).channels.getD c []).length = bs := by
  refine ⟨rfl, rfl, rfl, by simp [newAudioBuffer], ?_⟩
  intro c hcn
  simp [newAudioBuffer, List.getD_eq_getElem?_getD, List.getElem?_replicate, hcn]

/-- In streaming mode, rendering an event with no OSC2 and no clipping leaves
the buffer exactly as the sample loop wrote it: the OSC2 merge is skipped and
the envelope either does not apply (OSC2 child, `hasParent`) or is the
identity. -/
theorem renderBody_single_buf (ext : Ext) (props : Props)
    (childRender : Event → AudioBuffer → ℕ → RenderOut)
    (restart : Event → ℕ → Event × ℕ)
    (s : OscState) (bb : Option AudioBuffer) (B : AudioBuffer) (R : ℕ)
    (hEC : props.EVENT_CACHING = false)
    (hnoclip : (B.bufferSize : ℤ) ≤ s.sampleLength - 1)
    (hps : s.hasParent = true ∨ ext.adsrApply = (fun _ _ b _ => b)) :
    (renderBody ext props childRender restart
      { core := s, osc2 := none, buffer := bb } B R).buf =
      (renderLoop ext props s none B R 0 ((0 + (B.bufferSize : ℤ) - 0).toNat)).buf := by
  simp only [renderBody, renderEpilogue]
  simp only [show ({ core := s, osc2 := none, buffer := bb } : Event).osc2 = none from rfl,
    show ({ core := s, osc2 := none, buffer := bb } : Event).core = s from rfl,
    Option.isSome_none, hEC, Bool.false_eq_true, false_and, if_false]
  rw [if_neg (by omega : ¬(0 + (B.bufferSize : ℤ) > s.sampleLength - 1))]
  rw [if_neg (by omega : ¬(0 + (B.bufferSize : ℤ) > s.sampleLength - 1))]
  rcases hps with hpar | hadsr
  · rw [if_neg ?hpq]
    case hpq =>
      rw [(renderLoop_core_frame ext props _ _ _ _ _ _).2.2.2.2.2.1]
      simp [hpar]
  · rw [hadsr, ite_self]

/-- `renderEvent` version of `renderBody_single_buf`, at every fuel. -/
theorem renderEvent_single_buf (ext : Ext) (props : Props) (fuel : ℕ)
    (s : OscState) (bb : Option AudioBuffer) (B : AudioBuffer) (R : ℕ)
    (hEC : props.EVENT_CACHING = false)
    (hnoclip : (B.bufferSize : ℤ) ≤ s.sampleLength - 1)
    (hps : s.hasParent = true ∨ ext.adsrApply = (fun _ _ b _ => b)) :
    (renderEvent ext props fuel { core := s, osc2 := none, buffer := bb } B R).buf =
      (renderLoop ext props s none B R 0 ((0 + (B.bufferSize : ℤ) - 0).toNat)).buf := by
  cases fuel <;> exact renderBody_single_buf ext props _ _ s bb B R hEC hnoclip hps

/-- In streaming mode with no clipping, no pending cancel and no arpeggiator,
the buffer returned by `render` on a two-oscillator event is the sample
loop's (halved) buffer with the OSC2 transient render merged on top at
offset 0 and gain `MAX_PHASE = 1`. -/
theorem renderEvent_osc2_buf (ext : Ext) (props : Props) (fuelC : ℕ)
    (st : OscState) (b0 : Option AudioBuffer) (buf : AudioBuffer) (rng : ℕ)
    (hEC : props.EVENT_CACHING = false)
    (hnoclip : (buf.bufferSize : ℤ) ≤ st.sampleLength - 1)
    (harp : st.arpCounter = none)
    (hcancel : st.cancel = false)
    (hadsr : ext.adsrApply = (fun _ _ b _ => b)) :
    (renderEvent ext props (fuelC + 1)
      { core := st, osc2 := some { st with hasParent := true }, buffer := b0 } buf rng).buf =
      ((renderLoop ext props st (some { st with hasParent := true }) buf rng 0
          ((0 + (buf.bufferSize : ℤ) - 0).toNat)).buf.mergeBuffers
        (some (renderEvent ext props fuelC
          { core := { st with hasParent := true }, osc2 := none, buffer := none }
          (newAudioBuffer
            (renderLoop ext props st (some { st with hasParent := true }) buf rng 0
              ((0 + (buf.bufferSize : ℤ) - 0).toNat)).buf.amountOfChannels
            ((buf.bufferSize : ℤ)).toNat)
          (renderLoop ext props st (some { st with hasParent := true }) buf rng 0
            ((0 + (buf.bufferSize : ℤ) - 0).toNat)).rng).buf)
        0 ((0 : ℤ)).toNat 1).1 := by
  simp only [renderEvent, renderBody, renderEpilogue]
  simp only [show ({ core := st, osc2 := some { st with hasParent := true }, buffer := b0 } :
      Event).osc2 = some { st with hasParent := true } from rfl,
    show ({ core := st, osc2 := some { st with hasParent := true }, buffer := b0 } :
      Event).core = st from rfl,
    Option.isSome_some, hEC, Bool.false_eq_true, false_and, if_false]
  rw [if_neg (by omega : ¬(0 + (buf.bufferSize : ℤ) > st.sampleLength - 1))]
  rw [if_neg (by omega : ¬(0 + (buf.bufferSize : ℤ) > st.sampleLength - 1))]
  rw [hadsr]
  rw [ite_self]
  rw [if_pos ?hstep]
  case hstep =>
    refine ⟨?_, ?_⟩ <;>
      first
        | rfl
        | trivial
        | (rw [(renderLoop_core_frame ext props _ _ _ _ _ _).2.2.2.2.2.2.1]
           exact hcancel)
  rw [renderLoop_o2 ext props _ st _ _ _ _ harp]

/-- The general two-oscillator mix law: in streaming mode, with no clipping,
no arpeggiator, no pending cancel, an identity envelope and a non-noise
waveform, the combined render of an event whose OSC2 duplicates its own
state is `3/2` times the corresponding single-oscillator render — the parent
voice is halved but the OSC2 voice is merged at full gain `MAX_PHASE = 1`. -/
theorem osc2_mix_general (ext : Ext) (props : Props) (fuelC fuelS : ℕ)
    (st : OscState) (b0 b1 : Option AudioBuffer) (buf buf2 : AudioBuffer)
    (rng rng2 : ℕ)
    (hEC : props.EVENT_CACHING = false)
    (harp : st.arpCounter = none)
    (hno : st.type ≠ WaveForm.NOISE)
    (hcancel : st.cancel = false)
    (hadsr : ext.adsrApply = (fun _ _ b _ => b))
    (hnoclip : (buf.bufferSize : ℤ) ≤ st.sampleLength - 1)
    (hwf : buf.wf) (hwf2 : buf2.wf)
    (hab2 : buf2.amountOfChannels = buf.amountOfChannels)
    (hbs2 : buf2.bufferSize = buf.bufferSize) :
    ∀ c j : ℕ, c < buf.amountOfChannels → j < buf.bufferSize →
      (renderEvent ext props (fuelC + 1)
        { core := st, osc2 := some { st with hasParent := true }, buffer := b0 }
        buf rng).buf.sample c j =
      (3/2) * (renderEvent ext props fuelS
        { core := st, osc2 := none, buffer := b1 } buf2 rng2).buf.sample c j := by
  intro c j hc hj
  have hclbuf : c < buf.channels.length := by rw [hwf.1]; exact hc
  have hclbuf2 : c < buf2.channels.length := by rw [hwf2.1, hab2]; exact hc
  have hblen : (buf.channels.getD c []).length = buf.bufferSize := by
    rw [List.getD_eq_getElem?_getD, List.getElem?_eq_getElem hclbuf]
    exact hwf.2 _ (List.getElem_mem _)
  have hblen2 : (buf2.channels.getD c []).length = buf2.bufferSize := by
    rw [List.getD_eq_getElem?_getD, List.getElem?_eq_getElem hclbuf2]
    exact hwf2.2 _ (List.getElem_mem _)
  rw [renderEvent_osc2_buf ext props fuelC st b0 buf rng hEC hnoclip harp hcancel hadsr]
  rw [renderEvent_single_buf ext props fuelS st b1 buf2 rng2 hEC
    (by rw [hbs2]; exact hnoclip) (Or.inr hadsr)]
  rw [renderEvent_single_buf ext props fuelC _ none _ _ hEC ?ncChild (Or.inl rfl)]
  case ncChild =>
    show ((newAudioBuffer _ _).bufferSize : ℤ) ≤ _
    rw [(newAudioBuffer_meta _ _).2.1]
    have : ({ st with hasParent := true } : OscState).sampleLength = st.sampleLength := rfl
    rw [this]
    omega
  rw [(renderLoop_buf_meta ext props _ _ _ _ _ _).1]
  rw [show ((newAudioBuffer buf.amountOfChannels ((buf.bufferSize : ℤ)).toNat).bufferSize : ℤ) =
    (buf.bufferSize : ℤ) from by rw [(newAudioBuffer_meta _ _).2.1]; omega]
  rw [hbs2]
  rw [show ((0 : ℤ)).toNat = 0 from rfl]
  have hABmeta := renderLoop_buf_meta ext props ((0 + (buf.bufferSize : ℤ) - 0).toNat) st
    (some { st with hasParent := true }) buf rng 0
  have hCBmeta := renderLoop_buf_meta ext props ((0 + (buf.bufferSize : ℤ) - 0).toNat)
    { st with hasParent := true } none
    (newAudioBuffer buf.amountOfChannels ((buf.bufferSize : ℤ)).toNat)
    (renderLoop ext props st (some { st with hasParent := true }) buf rng 0
      ((0 + (buf.bufferSize : ℤ) - 0).toNat)).rng 0
  have htmpmeta := newAudioBuffer_meta buf.amountOfChannels ((buf.bufferSize : ℤ)).toNat
  have htmpbs : ((buf.bufferSize : ℤ)).toNat = buf.bufferSize := by omega
  rw [mergeBuffers_sample_add _ _ 1 c j ?mlp ?mwo ?mc ?mcs ?mcl ?mjw ?mjs ?mjt ?mwl]
  case mlp => rw [hCBmeta.2.2.1, htmpmeta.2.2.1]
  case mwo =>
    rw [hABmeta.2.1]
    omega
  case mc => rw [hABmeta.1]; exact hc
  case mcs =>
    rw [hCBmeta.1, htmpmeta.1]
    exact hc
  case mcl => rw [hABmeta.2.2.2.1, hwf.1]; exact hc
  case mjw =>
    unfold mergeWriteLength
    rw [hABmeta.2.1, hCBmeta.2.1, htmpmeta.2.1, htmpbs]
    split <;> omega
  case mjs => rw [hCBmeta.2.1, htmpmeta.2.1, htmpbs]; exact hj
  case mjt => rw [hABmeta.2.2.2.2 c, hblen]; exact hj
  case mwl =>
    unfold mergeWriteLength
    rw [hABmeta.2.1, hCBmeta.2.1, htmpmeta.2.1, htmpbs, hABmeta.2.2.2.2 c, hblen]
    split <;> omega
  have hchild := renderLoop_lockstep ext props ((0 + (buf.bufferSize : ℤ) - 0).toNat)
    st true { st with hasParent := true } buf
    (newAudioBuffer buf.amountOfChannels ((buf.bufferSize : ℤ)).toNat) rng
    (renderLoop ext props st (some { st with hasParent := true }) buf rng 0
      ((0 + (buf.bufferSize : ℤ) - 0).toNat)).rng 0
    harp hno hcancel (by rw [htmpmeta.1]) c j hc hclbuf
    (by rw [htmpmeta.2.2.2.1]; exact hc)
    (by rw [hblen]; exact hj)
    (by rw [htmpmeta.2.2.2.2 c hc, htmpbs]; exact hj)
    (by omega) (by omega)
  have hsingle : (renderLoop ext props st none buf2 rng2 0
      ((0 + (buf.bufferSize : ℤ) - 0).toNat)).buf.sample c j =
      2 * (renderLoop ext props st (some { st with hasParent := true }) buf rng 0
        ((0 + (buf.bufferSize : ℤ) - 0).toNat)).buf.sample c j :=
    renderLoop_lockstep ext props ((0 + (buf.bufferSize : ℤ) - 0).toNat)
      st st.hasParent { st with hasParent := true } buf buf2 rng rng2 0
      harp hno hcancel hab2.symm c j hc hclbuf hclbuf2
      (by rw [hblen]; exact hj)
      (by rw [hblen2, hbs2]; exact hj)
      (by omega) (by omega)
  rw [hchild, hsingle]
  ring

/-- The two-oscillator witness event: OSC2 duplicates the parent oscillator
(identical frequency — detune 0, octave 0, fine 0) with the `hasParent`
mark. -/
def evC3 : Event :=
  { core := oscSample, osc2 := some { oscSample with hasParent := true }, buffer := none }

/-- The single-oscillator comparison event at the same frequency. -/
def evC3single : Event := { core := oscSample, osc2 := none, buffer := none }

/-- C3 counterexample: the spec claims the combined render of the two
identical-frequency oscillators equals the single-oscillator render (each
voice halved).  In the code only the parent voice is halved — OSC2 is merged
at full gain `MAX_PHASE = 1` — so the combined sample is `3/2` of the single
render, not equal to it: at index 1 the sawtooth renders 1/8 alone but 3/16
combined. -/
theorem C3_osc2_mix_cex :
    (renderEvent extSample propsSample 1 evC3 (newAudioBuffer 1 4) 0).buf.sample 0 1 ≠
      (renderEvent extSample propsSample 0 evC3single (newAudioBuffer 1 4) 0).buf.sample 0 1 := by
  have hgen := osc2_mix_general extSample propsSample 0 0 oscSample none none
    (newAudioBuffer 1 4) (newAudioBuffer 1 4) 0 0
    rfl rfl (by decide) rfl rfl (by decide) (by decide) (by decide) rfl rfl 0 1
    (by decide) (by decide)
  have hsv : (renderEvent extSample propsSample 0 evC3single
      (newAudioBuffer 1 4) 0).buf.sample 0 1 = 1/8 := by
    norm_num [renderEvent, renderBody, renderEpilogue, renderLoop, waveSample, phaseAdvance,
      arpTick, writeAll, newAudioBuffer, AudioBuffer.sample, AudioBuffer.silenceBuffers,
      ratTrunc, extSample, propsSample, oscSample, evC3single, List.getD,
      show ¬(WaveForm.SAWTOOTH = WaveForm.PWM) from by decide,
      show ¬(WaveForm.SAWTOOTH = WaveForm.NOISE) from by decide,
      show ¬(WaveForm.SAWTOOTH = WaveForm.KARPLUS_STRONG) from by decide,
      show Int.toNat 2 = 2 from rfl, show Int.toNat 3 = 3 from rfl,
      List.getElem_set_ne, List.getElem_set_self]
  have hcomb : (renderEvent extSample propsSample 1 evC3 (newAudioBuffer 1 4) 0).buf.sample 0 1 =
      (3/2) * (renderEvent extSample propsSample 0 evC3single
        (newAudioBuffer 1 4) 0).buf.sample 0 1 := hgen
  rw [hcomb, hsv]
  norm_num

/-- C3 (amended): when an event has an active OSC2 duplicating its state at
identical frequency (detune 0 cents, octave shift 0, fine shift 0), the
parent's per-sample contribution is halved but OSC2's transient render is
merged at full gain `MAX_PHASE = 1`, so the combined render equals `3/2`
times — not `1` times — the single-oscillator render of the same frequency
(streaming mode, no clipping, no arpeggiator, no pending cancel, identity
envelope, non-noise waveform). -/
theorem C3_osc2_mix_amended (ext : Ext) (props : Props) (fuelC fuelS : ℕ)
    (st : OscState) (b0 b1 : Option AudioBuffer) (buf buf2 : AudioBuffer)
    (rng rng2 : ℕ)
    (hEC : props.EVENT_CACHING = false)
    (harp : st.arpCounter = none)
    (hno : st.type ≠ WaveForm.NOISE)
    (hcancel : st.cancel = false)
    (hadsr : ext.adsrApply = (fun _ _ b _ => b))
    (hnoclip : (buf.bufferSize : ℤ) ≤ st.sampleLength - 1)
    (hwf : buf.wf) (hwf2 : buf2.wf)
    (hab2 : buf2.amountOfChannels = buf.amountOfChannels)
    (hbs2 : buf2.bufferSize = buf.bufferSize) :
    ∀ c j : ℕ, c < buf.amountOfChannels → j < buf.bufferSize →
      (renderEvent ext props (fuelC + 1)
        { core := st, osc2 := some { st with hasParent := true }, buffer := b0 }
        buf rng).buf.sample c j =
      (3/2) * (renderEvent ext props fuelS
        { core := st, osc2 := none, buffer := b1 } buf2 rng2).buf.sample c j :=
  osc2_mix_general ext props fuelC fuelS st b0 b1 buf buf2 rng rng2
    hEC harp hno hcancel hadsr hnoclip hwf hwf2 hab2 hbs2

/-- C3 witness: for the concrete sawtooth pair, the combined sample at
index 1 is exactly `3/2` of the single-oscillator sample. -/
theorem C3_osc2_mix_amended_witness :
    (renderEvent extSample propsSample 1
      { core := oscSample, osc2 := some { oscSample with hasParent := true }, buffer := none }
      (newAudioBuffer 1 4) 0).buf.sample 0 1 =
      (3/2) * (renderEvent extSample propsSample 0
        { core := oscSample, osc2 := none, buffer := none }
        (newAudioBuffer 1 4) 0).buf.sample 0 1 :=
  C3_osc2_mix_amended extSample propsSample 0 0 oscSample none none
    (newAudioBuffer 1 4) (newAudioBuffer 1 4) 0 0
    rfl rfl (by decide) rfl rfl (by decide) (by decide) (by decide) rfl rfl 0 1
    (by decide) (by decide)

end MWEngine
